import Mathlib

set_option maxRecDepth 100000

/-!
# Verification of SnpPageStateChangeInternal.c

A shallow embedding of `OvmfPkg/Library/BaseMemEncryptSevLib/X64/SnpPageStateChangeInternal.c`
(SEV-SNP page validation): building page-state-change buffers, the PVALIDATE
loop with large-page demotion, the page-state-change VMGEXIT round loop, the
multi-round wrapper, and the orchestrating `InternalSetPageState`.

Machine integers are modelled as `Nat`, with `% 2 ^ 16` at the points where the
C code stores into a `UINT16` field. External primitives (`AsmPvalidate`,
`CcExitVmgExit` together with the hypervisor's updates to the shared GHCB
buffer) are modelled as oracle functions supplied as parameters. Executions
produce explicit event traces so that ordering properties can be stated.
-/

/-- `EFI_PAGE_SIZE` (4 KiB). -/
def EFI_PAGE_SIZE : Nat := 4096

/-- `EFI_PAGE_SHIFT`. -/
def EFI_PAGE_SHIFT : Nat := 12

/-- `SIZE_2MB`. -/
def SIZE_2MB : Nat := 2097152

/-- `PAGES_PER_LARGE_ENTRY` from SnpPageStateChangeInternal.c. -/
def PAGES_PER_LARGE_ENTRY : Nat := 512

/-- Modelled from the spec: `PvalidatePageSize4K`, the small (4 KiB) granule
selector of the PVALIDATE instruction; its numeric value comes from
`Register/Amd/Pvalidate.h`, which is not part of the sources. -/
def PvalidatePageSize4K : Nat := 0

/-- Modelled from the spec: `PvalidatePageSize2MB`, the large (2 MiB) granule
selector of the PVALIDATE instruction (header not in the sources). -/
def PvalidatePageSize2MB : Nat := 1

/-- Modelled from the spec: `PVALIDATE_RET_SIZE_MISMATCH`, the size-mismatch
return value of PVALIDATE (header not in the sources). -/
def PVALIDATE_RET_SIZE_MISMATCH : Nat := 6

/-- Modelled from the spec: `SNP_PAGE_STATE_PRIVATE` GHCB operation code
(from `SnpPageStateChange.h`, not in the sources). -/
def SNP_PAGE_STATE_PRIVATE : Nat := 1

/-- Modelled from the spec: `SNP_PAGE_STATE_SHARED` GHCB operation code
(from `SnpPageStateChange.h`, not in the sources). -/
def SNP_PAGE_STATE_SHARED : Nat := 2

/-- Modelled from the spec: `SNP_PAGE_STATE_MAX_ENTRY`, the architectural
maximum number of entries per page-state-change exchange (from
`SnpPageStateChange.h`, not in the sources). -/
def SNP_PAGE_STATE_MAX_ENTRY : Nat := 253

/-- Modelled from the spec: `GHCB_INFO_TERMINATE_REQUEST`, the GHCB MSR
protocol function code of a termination request (from `Register/Amd/Msr.h`,
not in the sources). -/
def GHCB_INFO_TERMINATE_REQUEST : Nat := 256

/-- Modelled from the spec: `GHCB_TERMINATE_GHCB`, the reason-code-set value
naming the GHCB (trust-boundary) channel (header not in the sources). -/
def GHCB_TERMINATE_GHCB : Nat := 0

/-- Modelled from the spec: `GHCB_TERMINATE_GHCB_GENERAL`, the general-failure
reason code (header not in the sources). -/
def GHCB_TERMINATE_GHCB_GENERAL : Nat := 0

/-- `SEV_SNP_PAGE_STATE`: the requested target security state of a page. -/
inductive SEV_SNP_PAGE_STATE where
  | SevSnpPageShared
  | SevSnpPagePrivate
deriving DecidableEq, Repr

open SEV_SNP_PAGE_STATE

/-- `MemoryStateToGhcbOp` from SnpPageStateChangeInternal.c. -/
def MemoryStateToGhcbOp (State : SEV_SNP_PAGE_STATE) : Nat :=
  match State with
  | SevSnpPageShared => SNP_PAGE_STATE_SHARED
  | SevSnpPagePrivate => SNP_PAGE_STATE_PRIVATE

/-- One `SNP_PAGE_STATE_ENTRY` of the page-state-change structure. Modelled
from the spec for the field widths: `guestFrameNumber` holds enough bits to
address all physical frames, so it is kept as an unbounded `Nat`. -/
structure SNP_PAGE_STATE_ENTRY where
  GuestFrameNumber : Nat
  PageSize : Nat
  Operation : Nat
  CurrentPage : Nat
deriving DecidableEq, Repr

instance : Inhabited SNP_PAGE_STATE_ENTRY :=
  ⟨{ GuestFrameNumber := 0, PageSize := 0, Operation := 0, CurrentPage := 0 }⟩

/-- `SNP_PAGE_STATE_HEADER`: two 16-bit cursors. -/
structure SNP_PAGE_STATE_HEADER where
  CurrentEntry : Nat
  EndEntry : Nat
deriving DecidableEq, Repr

/-- `SNP_PAGE_STATE_CHANGE_INFO`: header plus entry sequence. -/
structure SNP_PAGE_STATE_CHANGE_INFO where
  Header : SNP_PAGE_STATE_HEADER
  Entry : List SNP_PAGE_STATE_ENTRY
deriving DecidableEq, Repr

/-- Observable events of an execution: PVALIDATE instructions, GHCB session
open/close, page-state-change VMGEXIT calls, and the three steps of the
termination path. -/
inductive Ev where
  | evPvalidate (PageSize : Nat) (Validate : Bool) (Address : Nat) (Ret : Nat)
  | evVmgInit
  | evVmgExitCall (Status : Nat) (SwExitInfo2 : Nat)
  | evVmgDone
  | evTermMsrWrite (Value : Nat)
  | evTermVmgExit
  | evDeadLoop
deriving DecidableEq, Repr

/-- The fixed GHCB MSR value written by `SnpPageStateFailureTerminate`:
function = terminate-request, reason-code-set = GHCB (trust boundary),
reason-code = general failure, packed as in `MSR_SEV_ES_GHCB_REGISTER`
(function in bits 0-11, reason-code-set in bits 12-15, reason code in
bits 16-23). -/
def terminateMsrValue : Nat :=
  GHCB_INFO_TERMINATE_REQUEST + GHCB_TERMINATE_GHCB * 4096 +
    GHCB_TERMINATE_GHCB_GENERAL * 65536

/-- `SnpPageStateFailureTerminate`: write the termination request to the GHCB
MSR, issue the MSR-protocol VMGEXIT, then dead-loop; the function never
returns, so its trace is final. -/
def snpTerminateTrace : List Ev :=
  [Ev.evTermMsrWrite terminateMsrValue, Ev.evTermVmgExit, Ev.evDeadLoop]

/-- The loop of `BuildPageStateBuffer`: starting at `BaseAddress`, while the
address is below `EndAddress` and capacity remains, emit a 2 MiB entry when
`UseLargeEntry` is set, the address is 2 MiB-aligned and at least 2 MiB
remains, else a 4 KiB entry. `dflt` is the value `NextAddress` holds if no
iteration runs (the C code initializes `NextAddress = EndAddress`). Returns
the emitted entries and the final `NextAddress`. -/
def buildLoop (EndAddress : Nat) (State : SEV_SNP_PAGE_STATE)
    (UseLargeEntry : Bool) : Nat → Nat → Nat → List SNP_PAGE_STATE_ENTRY × Nat
  | _BaseAddress, 0, dflt => ([], dflt)
  | BaseAddress, cap + 1, dflt =>
    if BaseAddress < EndAddress then
      let step : Nat × Nat :=
        if UseLargeEntry = true ∧ BaseAddress % SIZE_2MB = 0 ∧
            SIZE_2MB ≤ EndAddress - BaseAddress then
          (PvalidatePageSize2MB, BaseAddress + SIZE_2MB)
        else
          (PvalidatePageSize4K, BaseAddress + EFI_PAGE_SIZE)
      let e : SNP_PAGE_STATE_ENTRY :=
        { GuestFrameNumber := BaseAddress / 2 ^ EFI_PAGE_SHIFT
          PageSize := step.1
          Operation := MemoryStateToGhcbOp State
          CurrentPage := 0 }
      let r := buildLoop EndAddress State UseLargeEntry step.2 cap step.2
      (e :: r.1, r.2)
    else ([], dflt)

/-- `BuildPageStateBuffer`: clear the structure, run the fill loop with
capacity `IndexMax` (in the C code `(InfoSize - sizeof Header) / sizeof
Entry`), set `Header.EndEntry` to the last written index (a `UINT16` store;
it stays 0 from the clearing when no entry is written), and return the first
unconsumed address. -/
def BuildPageStateBuffer (BaseAddress EndAddress : Nat)
    (State : SEV_SNP_PAGE_STATE) (UseLargeEntry : Bool) (IndexMax : Nat) :
    SNP_PAGE_STATE_CHANGE_INFO × Nat :=
  let r := buildLoop EndAddress State UseLargeEntry BaseAddress IndexMax EndAddress
  ({ Header :=
      { CurrentEntry := 0
        EndEntry := if r.1.length = 0 then 0 else (r.1.length - 1) % 2 ^ 16 }
     Entry := r.1 }, r.2)

/-- The address range `(start, length)` covered by one entry, decoded from the
entry itself as `PvalidateRange` does (`GuestFrameNumber << EFI_PAGE_SHIFT`). -/
def entryRange (e : SNP_PAGE_STATE_ENTRY) : Nat × Nat :=
  (e.GuestFrameNumber * 2 ^ EFI_PAGE_SHIFT,
    if e.PageSize = PvalidatePageSize2MB then SIZE_2MB else EFI_PAGE_SIZE)

/-- `tiles l b e`: the ranges in `l` exactly tile `[b, e)`: consecutive,
non-empty, the first starts at `b` and the last ends at `e`. -/
def tiles : List (Nat × Nat) → Nat → Nat → Prop
  | [], b, e => b = e
  | (s, n) :: rest, b, e => s = b ∧ 0 < n ∧ tiles rest (b + n) e

instance tilesDec : ∀ (l : List (Nat × Nat)) (b e : Nat), Decidable (tiles l b e)
  | [], _, _ => inferInstanceAs (Decidable (_ = _))
  | (_s, n) :: rest, b, e =>
    have : Decidable (tiles rest (b + n) e) := tilesDec rest (b + n) e
    inferInstanceAs (Decidable (_ ∧ _ ∧ _))

/-- An `AsmPvalidate` oracle: `(RmpPageSize, Validate, Address) ↦ Ret`. -/
def PvOracle : Type := Nat → Bool → Nat → Nat

/-- The demotion loop of `PvalidateRange`: after a 2 MiB size-mismatch, issue
4 KiB PVALIDATEs at `Address`, `Address + EFI_PAGE_SIZE`, …, stopping at the
first non-zero return; `Ret` threads the last return value (the loop is
entered with the size-mismatch value, and leaves it unchanged if the count is
zero). Returns the final `Ret` and the trace of issued PVALIDATEs. -/
def demoteLoop (pv : PvOracle) (Validate : Bool) :
    Nat → Nat → Nat → Nat × List Ev
  | _Address, Ret, 0 => (Ret, [])
  | Address, _Ret, n + 1 =>
    let r := pv PvalidatePageSize4K Validate Address
    let ev := Ev.evPvalidate PvalidatePageSize4K Validate Address r
    if r ≠ 0 then (r, [ev])
    else
      let rest := demoteLoop pv Validate (Address + EFI_PAGE_SIZE) r n
      (rest.1, ev :: rest.2)

/-- One iteration of `PvalidateRange`'s entry loop: decode address, page size
and direction from the entry, issue PVALIDATE, and on a 2 MiB size-mismatch
run the demotion loop over `PAGES_PER_LARGE_ENTRY` small pages. Returns the
final `Ret` and the PVALIDATE trace. -/
def pvalidateEntry (pv : PvOracle) (e : SNP_PAGE_STATE_ENTRY) : Nat × List Ev :=
  let Address := e.GuestFrameNumber * 2 ^ EFI_PAGE_SHIFT
  let RmpPageSize := e.PageSize
  let Validate : Bool := decide (e.Operation = SNP_PAGE_STATE_PRIVATE)
  let Ret := pv RmpPageSize Validate Address
  let ev := Ev.evPvalidate RmpPageSize Validate Address Ret
  if Ret = PVALIDATE_RET_SIZE_MISMATCH ∧ RmpPageSize = PvalidatePageSize2MB then
    let r := demoteLoop pv Validate Address Ret PAGES_PER_LARGE_ENTRY
    (r.1, ev :: r.2)
  else (Ret, [ev])

/-- Entry loop of `PvalidateRange`, from index `i`, running `n` iterations
(`n` is `EndIndex + 1 - StartIndex`). If an entry's final `Ret` is non-zero,
`SnpPageStateFailureTerminate` is called: the trace ends with the termination
events and the result is `false` (terminated, no return). -/
def pvalidateRangeGo (pv : PvOracle) (entries : List SNP_PAGE_STATE_ENTRY) :
    Nat → Nat → Bool × List Ev
  | _i, 0 => (true, [])
  | i, n + 1 =>
    let r := pvalidateEntry pv (entries.getD i default)
    if r.1 ≠ 0 then (false, r.2 ++ snpTerminateTrace)
    else
      let rest := pvalidateRangeGo pv entries (i + 1) n
      (rest.1, r.2 ++ rest.2)

/-- `PvalidateRange`: apply PVALIDATE (with demotion retry) to the entries
`Header.CurrentEntry … Header.EndEntry`. Returns `true` with the trace when
every entry succeeded, `false` (terminated) otherwise. -/
def PvalidateRange (pv : PvOracle) (Info : SNP_PAGE_STATE_CHANGE_INFO) :
    Bool × List Ev :=
  pvalidateRangeGo pv Info.Entry Info.Header.CurrentEntry
    (Info.Header.EndEntry + 1 - Info.Header.CurrentEntry)

/-- Result of a modelled guest computation: returned normally, invoked the
non-returning `SnpPageStateFailureTerminate`, or the exit-call fuel ran out
(the hypervisor never advanced the cursor; the C loop would still be
spinning). -/
inductive RunRes where
  | ok
  | term
  | stuck
deriving DecidableEq, Repr

/-- A hypervisor oracle for the page-state-change VMGEXIT: the `k`-th exit
call of the execution returns `(Status, SwExitInfo2, CurrentEntry)`, the last
component being the value the hypervisor leaves in the shared buffer's
`Header.CurrentEntry`. -/
def HvOracle : Type := Nat → Nat × Nat × Nat

/-- Result of the exit-retry loop of `PageStateChangeVmgExit`. -/
structure LoopRes where
  res : RunRes
  cur : Nat
  k : Nat
  fuel : Nat
  trace : List Ev
deriving Repr, DecidableEq

/-- The retry loop of `PageStateChangeVmgExit`: while the shared buffer's
`CurrentEntry ≤ EndEntry`, re-issue the page-state-change VMGEXIT; a non-zero
status or non-zero `SwExitInfo2` terminates the guest. `fuel` bounds the
number of exit calls (the C loop is unbounded; exhausted fuel means the
hypervisor kept the guest spinning). -/
def vmgLoop (hv : HvOracle) (EndEntry : Nat) :
    Nat → Nat → Nat → LoopRes
  | cur, k, 0 =>
    if cur ≤ EndEntry then ⟨RunRes.stuck, cur, k, 0, []⟩
    else ⟨RunRes.ok, cur, k, 0, []⟩
  | cur, k, fuel + 1 =>
    if cur ≤ EndEntry then
      let h := hv k
      let ev := Ev.evVmgExitCall h.1 h.2.1
      if h.1 ≠ 0 ∨ h.2.1 ≠ 0 then
        ⟨RunRes.term, h.2.2, k + 1, fuel, ev :: snpTerminateTrace⟩
      else
        let r := vmgLoop hv EndEntry h.2.2 (k + 1) fuel
        ⟨r.res, r.cur, r.k, r.fuel, ev :: r.trace⟩
    else ⟨RunRes.ok, cur, k, fuel + 1, []⟩

/-- Result of one `PageStateChangeVmgExit` round: outcome, the final contents
of the GHCB shared buffer, whether the overflow branch (`Count` above the
architectural maximum) was taken, the next call counter, remaining fuel, and
the event trace. -/
structure ExitRes where
  res : RunRes
  ghcb : SNP_PAGE_STATE_CHANGE_INFO
  overflow : Bool
  k : Nat
  fuel : Nat
  trace : List Ev
deriving Repr, DecidableEq

/-- `PageStateChangeVmgExit` for one round: terminate if `Count` exceeds the
architectural maximum `maxE`; otherwise open the GHCB session, copy `Count`
entries from `Start` into the shared buffer, set its header to
`CurrentEntry = 0`, `EndEntry = Count - 1` (a `UINT16` store), and drain the
round with `vmgLoop`. The session-close (`CcExitVmgDone`) event is emitted
only on the path that falls out of the loop. -/
def PageStateChangeVmgExit (hv : HvOracle) (maxE : Nat)
    (Start : List SNP_PAGE_STATE_ENTRY) (Count : Nat) (k fuel : Nat) : ExitRes :=
  if Count > maxE then
    { res := RunRes.term
      ghcb := { Header := { CurrentEntry := 0, EndEntry := 0 }, Entry := [] }
      overflow := true
      k := k, fuel := fuel
      trace := snpTerminateTrace }
  else
    let endE := (Count + 2 ^ 16 - 1) % 2 ^ 16
    let copied := Start.take Count
    let r := vmgLoop hv endE 0 k fuel
    { res := r.res
      ghcb := { Header := { CurrentEntry := r.cur, EndEntry := endE }, Entry := copied }
      overflow := false
      k := r.k, fuel := r.fuel
      trace :=
        if r.res = RunRes.ok then Ev.evVmgInit :: (r.trace ++ [Ev.evVmgDone])
        else Ev.evVmgInit :: r.trace }

/-- Result of the multi-round `PageStateChange`: outcome, the list of rounds
(each with the slice length submitted and the round's result), the next call
counter, remaining exit fuel, and the concatenated trace. -/
structure PscRes where
  res : RunRes
  rounds : List (Nat × ExitRes)
  k : Nat
  fuel : Nat
  trace : List Ev
deriving Repr, DecidableEq

/-- The slicing loop of `PageStateChange`: from `Index` while
`Index ≤ EndEntry`, submit a slice of `Count = min (EndEntry - Index + 1)
maxE` entries starting at `Index`, then advance `Index` by `Count` (a
`UINT16` increment, hence the `% 2 ^ 16`). `roundFuel` bounds the number of
rounds so the model is total even at the `EndEntry = 0xFFFF` wrap-around. -/
def pageStateChangeGo (hv : HvOracle) (maxE : Nat)
    (entries : List SNP_PAGE_STATE_ENTRY) (EndEntry : Nat) :
    Nat → Nat → Nat → Nat → PscRes
  | Index, k, fuel, 0 =>
    if Index ≤ EndEntry then ⟨RunRes.stuck, [], k, fuel, []⟩
    else ⟨RunRes.ok, [], k, fuel, []⟩
  | Index, k, fuel, roundFuel + 1 =>
    if Index ≤ EndEntry then
      let Count := min (EndEntry - Index + 1) maxE
      let er := PageStateChangeVmgExit hv maxE (entries.drop Index) Count k fuel
      if er.res = RunRes.ok then
        let rest :=
          pageStateChangeGo hv maxE entries EndEntry
            ((Index + Count) % 2 ^ 16) er.k er.fuel roundFuel
        ⟨rest.res, (Count, er) :: rest.rounds, rest.k, rest.fuel,
          er.trace ++ rest.trace⟩
      else ⟨er.res, [(Count, er)], er.k, er.fuel, er.trace⟩
    else ⟨RunRes.ok, [], k, fuel, []⟩

/-- `PageStateChange`: run the slicing loop from the batch header's
`CurrentEntry` up to its `EndEntry`, submitting slices of the batch's entry
array. The batch structure `Info` itself is read, never written. -/
def PageStateChange (hv : HvOracle) (maxE : Nat)
    (Info : SNP_PAGE_STATE_CHANGE_INFO) (k fuel roundFuel : Nat) : PscRes :=
  pageStateChangeGo hv maxE Info.Entry Info.Header.EndEntry
    Info.Header.CurrentEntry k fuel roundFuel

/-- The final `NextAddress` of `buildLoop` is either the supplied default or
strictly beyond the starting address. -/
theorem buildLoop_snd_eq_or_gt (EndAddress : Nat) (State : SEV_SNP_PAGE_STATE)
    (UseLargeEntry : Bool) :
    ∀ (cap BaseAddress dflt : Nat),
      (buildLoop EndAddress State UseLargeEntry BaseAddress cap dflt).2 = dflt ∨
        BaseAddress < (buildLoop EndAddress State UseLargeEntry BaseAddress cap dflt).2
  | 0, _, _ => Or.inl rfl
  | cap + 1, BaseAddress, dflt => by
    by_cases hlt : BaseAddress < EndAddress
    · simp only [buildLoop, hlt, if_true]
      set st : Nat × Nat :=
        if UseLargeEntry = true ∧ BaseAddress % SIZE_2MB = 0 ∧
            SIZE_2MB ≤ EndAddress - BaseAddress then
          (PvalidatePageSize2MB, BaseAddress + SIZE_2MB)
        else (PvalidatePageSize4K, BaseAddress + EFI_PAGE_SIZE) with hst
      have hstep : BaseAddress < st.2 := by
        rw [hst]
        split
        · simp only [SIZE_2MB]; omega
        · simp only [EFI_PAGE_SIZE]; omega
      rcases buildLoop_snd_eq_or_gt EndAddress State UseLargeEntry cap st.2 st.2
          with h | h
      · right
        rw [h]
        exact hstep
      · right
        exact lt_trans hstep h
    · simp only [buildLoop]
      rw [if_neg hlt]
      exact Or.inl rfl

/-- Progress: when there is work left, `BuildPageStateBuffer` moves the base
address strictly forward (whatever the capacity: with zero capacity or a full
buffer it returns `EndAddress` or a strictly advanced address). -/
theorem BuildPageStateBuffer_progress (BaseAddress EndAddress : Nat)
    (State : SEV_SNP_PAGE_STATE) (UseLargeEntry : Bool) (IndexMax : Nat)
    (h : BaseAddress < EndAddress) :
    BaseAddress <
      (BuildPageStateBuffer BaseAddress EndAddress State UseLargeEntry IndexMax).2 := by
  show BaseAddress <
    (buildLoop EndAddress State UseLargeEntry BaseAddress IndexMax EndAddress).2
  rcases buildLoop_snd_eq_or_gt EndAddress State UseLargeEntry IndexMax BaseAddress
      EndAddress with h2 | h2
  · rw [h2]; exact h
  · exact h2

/-- The batch iteration of `InternalSetPageState`'s loop, structurally
recursive on the spare fuel `bf`: each iteration fills the buffer from the
current address and restarts from the returned first-unconsumed address,
until the range is exhausted. Since every iteration advances the address by
at least one, `bf = EndAddress - BaseAddress` makes this exactly the C loop
(the fuel guard then fires only when the loop condition is false anyway). -/
def buildBatchGo (EndAddress : Nat) (State : SEV_SNP_PAGE_STATE)
    (UseLargeEntry : Bool) (IndexMax : Nat) :
    Nat → Nat → List SNP_PAGE_STATE_CHANGE_INFO
  | _BaseAddress, 0 => []
  | BaseAddress, bf + 1 =>
    if BaseAddress < EndAddress then
      let b := BuildPageStateBuffer BaseAddress EndAddress State UseLargeEntry IndexMax
      b.1 :: buildBatchGo EndAddress State UseLargeEntry IndexMax b.2 bf
    else []

/-- The sequence of batches built by `InternalSetPageState`'s loop. -/
def buildBatchSeq (EndAddress : Nat) (State : SEV_SNP_PAGE_STATE)
    (UseLargeEntry : Bool) (IndexMax : Nat) (BaseAddress : Nat) :
    List SNP_PAGE_STATE_CHANGE_INFO :=
  buildBatchGo EndAddress State UseLargeEntry IndexMax BaseAddress
    (EndAddress - BaseAddress)

/-- One batch of an `InternalSetPageState` run: the batch structure built for
it, the first address after it, and the events of its build/validate/exchange
cycle (including, on failure, the terminating events). -/
structure BatchRec where
  info : SNP_PAGE_STATE_CHANGE_INFO
  next : Nat
  trace : List Ev
deriving Repr, DecidableEq

/-- The loop of `InternalSetPageState`: build the next batch; when the target
state is Shared run `PvalidateRange` (invalidate) before the exchange; run
`PageStateChange`; when the target state is Private run `PvalidateRange`
(validate) after the exchange; repeat until the end address is reached.
A termination (or exhausted fuel) inside a phase stops the run there, the
later phases and batches producing no events. -/
def internalSetPageStateLoop (pv : PvOracle) (hv : HvOracle) (maxE : Nat)
    (State : SEV_SNP_PAGE_STATE) (UseLargeEntry : Bool) (IndexMax : Nat)
    (EndAddress : Nat) :
    Nat → Nat → Nat → Nat → Nat → RunRes × List BatchRec
  | _NextAddress, _k, _fuel, _roundFuel, 0 => (RunRes.ok, [])
  | NextAddress, k, fuel, roundFuel, bf + 1 =>
    if NextAddress < EndAddress then
    let b := BuildPageStateBuffer NextAddress EndAddress State UseLargeEntry IndexMax
    let Info := b.1
    let pre := if State = SevSnpPageShared then PvalidateRange pv Info else (true, [])
    if pre.1 = false then
      (RunRes.term, [{ info := Info, next := b.2, trace := pre.2 }])
    else
      let pc := PageStateChange hv maxE Info k fuel roundFuel
      if pc.res = RunRes.ok then
        let post :=
          if State = SevSnpPagePrivate then PvalidateRange pv Info else (true, [])
        if post.1 = false then
          (RunRes.term,
            [{ info := Info, next := b.2, trace := pre.2 ++ pc.trace ++ post.2 }])
        else
          let rest :=
            internalSetPageStateLoop pv hv maxE State UseLargeEntry IndexMax
              EndAddress b.2 pc.k pc.fuel roundFuel bf
          (rest.1,
            { info := Info, next := b.2, trace := pre.2 ++ pc.trace ++ post.2 } ::
              rest.2)
      else
        (pc.res, [{ info := Info, next := b.2, trace := pre.2 ++ pc.trace }])
    else (RunRes.ok, [])

/-- The loop of `InternalSetPageState`, entered with exactly enough spare fuel
(`EndAddress - NextAddress`; every iteration strictly advances the address, so
the guard can only fire when the loop condition is false and the loop would
return anyway). -/
def internalSetPageStateGo (pv : PvOracle) (hv : HvOracle) (maxE : Nat)
    (State : SEV_SNP_PAGE_STATE) (UseLargeEntry : Bool) (IndexMax : Nat)
    (EndAddress NextAddress : Nat) (k fuel roundFuel : Nat) :
    RunRes × List BatchRec :=
  internalSetPageStateLoop pv hv maxE State UseLargeEntry IndexMax EndAddress
    NextAddress k fuel roundFuel (EndAddress - NextAddress)

/-- `InternalSetPageState`: transition the pages
`[BaseAddress, BaseAddress + NumPages · EFI_PAGE_SIZE)` to `State`, batch by
batch, with the architectural per-exchange maximum. -/
def InternalSetPageState (pv : PvOracle) (hv : HvOracle)
    (BaseAddress NumPages : Nat) (State : SEV_SNP_PAGE_STATE)
    (UseLargeEntry : Bool) (IndexMax : Nat) (k fuel roundFuel : Nat) :
    RunRes × List BatchRec :=
  internalSetPageStateGo pv hv SNP_PAGE_STATE_MAX_ENTRY State UseLargeEntry
    IndexMax (BaseAddress + NumPages * EFI_PAGE_SIZE) BaseAddress k fuel roundFuel

theorem tiles_nil (b e : Nat) : tiles [] b e ↔ b = e := Iff.rfl

theorem tiles_cons (s n : Nat) (rest : List (Nat × Nat)) (b e : Nat) :
    tiles ((s, n) :: rest) b e ↔ s = b ∧ 0 < n ∧ tiles rest (b + n) e := Iff.rfl

theorem tiles_append : ∀ (l1 l2 : List (Nat × Nat)) (b m e : Nat),
    tiles l1 b m → tiles l2 m e → tiles (l1 ++ l2) b e
  | [], l2, b, m, e, h1, h2 => by
    simp only [tiles] at h1
    simpa [h1] using h2
  | (s, n) :: r, l2, b, m, e, h1, h2 => by
    obtain ⟨hs, hn, hr⟩ := h1
    exact ⟨hs, hn, tiles_append r l2 (b + n) m e hr h2⟩

theorem tiles_bounds : ∀ (l : List (Nat × Nat)) (b e : Nat), tiles l b e →
    b ≤ e ∧ ∀ r ∈ l, b ≤ r.1 ∧ r.1 + r.2 ≤ e
  | [], b, e, h => by
    simp only [tiles] at h
    simp [h]
  | (s, n) :: rest, b, e, h => by
    obtain ⟨hs, hn, hr⟩ := h
    have ih := tiles_bounds rest (b + n) e hr
    refine ⟨by omega, ?_⟩
    intro r hr2
    rcases List.mem_cons.mp hr2 with hr2 | hr2
    · subst hr2
      have := ih.1
      simp only
      omega
    · have := ih.2 r hr2
      omega

theorem tiles_chain : ∀ (l : List (Nat × Nat)) (b e : Nat), tiles l b e →
    List.Chain' (fun r s => r.1 + r.2 = s.1) l
  | [], _, _, _ => List.chain'_nil
  | [(s, n)], _, _, _ => List.chain'_singleton _
  | (s, n) :: (s2, n2) :: rest, b, e, h => by
    obtain ⟨hs, hn, hs2, hn2, hr⟩ := h
    refine List.Chain'.cons ?_ (tiles_chain ((s2, n2) :: rest) (b + n) e ⟨hs2, hn2, hr⟩)
    simp only
    omega

theorem buildLoop_granule (EndAddress : Nat) (State : SEV_SNP_PAGE_STATE)
    (UseLargeEntry : Bool) :
    ∀ (cap BaseAddress dflt : Nat), BaseAddress % EFI_PAGE_SIZE = 0 →
      ∀ e ∈ (buildLoop EndAddress State UseLargeEntry BaseAddress cap dflt).1,
        e.Operation = MemoryStateToGhcbOp State ∧
        (e.PageSize = PvalidatePageSize2MB ∨ e.PageSize = PvalidatePageSize4K) ∧
        (e.PageSize = PvalidatePageSize2MB ↔
          UseLargeEntry = true ∧
            (e.GuestFrameNumber * 2 ^ EFI_PAGE_SHIFT) % SIZE_2MB = 0 ∧
            e.GuestFrameNumber * 2 ^ EFI_PAGE_SHIFT + SIZE_2MB ≤ EndAddress)
  | 0, _, _, _ => by intro e he; simp [buildLoop] at he
  | cap + 1, BaseAddress, dflt, hal => by
    intro e he
    by_cases hlt : BaseAddress < EndAddress
    · have hdiv : BaseAddress / 2 ^ EFI_PAGE_SHIFT * 2 ^ EFI_PAGE_SHIFT = BaseAddress := by
        simp only [EFI_PAGE_SIZE] at hal
        simp only [EFI_PAGE_SHIFT]
        omega
      simp only [buildLoop, hlt, if_true] at he
      by_cases hL : UseLargeEntry = true ∧ BaseAddress % SIZE_2MB = 0 ∧
          SIZE_2MB ≤ EndAddress - BaseAddress
      · rw [if_pos hL] at he
        rcases List.mem_cons.mp he with he | he
        · subst he
          refine ⟨rfl, Or.inl rfl, ?_⟩
          constructor
          · intro _
            refine ⟨hL.1, ?_, ?_⟩
            · dsimp only
              rw [hdiv]
              exact hL.2.1
            · dsimp only
              rw [hdiv]
              have := hL.2.2
              omega
          · intro _
            rfl
        · exact buildLoop_granule EndAddress State UseLargeEntry cap
            (BaseAddress + SIZE_2MB) (BaseAddress + SIZE_2MB)
            (by simp only [SIZE_2MB, EFI_PAGE_SIZE] at *; omega) e he
      · rw [if_neg hL] at he
        rcases List.mem_cons.mp he with he | he
        · subst he
          refine ⟨rfl, Or.inr rfl, ?_⟩
          constructor
          · intro hps
            exact absurd hps (by simp [PvalidatePageSize4K, PvalidatePageSize2MB])
          · intro ⟨h1, h2, h3⟩
            dsimp only at h2 h3
            rw [hdiv] at h2 h3
            exact absurd ⟨h1, h2, by omega⟩ hL
        · exact buildLoop_granule EndAddress State UseLargeEntry cap
            (BaseAddress + EFI_PAGE_SIZE) (BaseAddress + EFI_PAGE_SIZE)
            (by simp only [EFI_PAGE_SIZE] at *; omega) e he
    · simp only [buildLoop] at he
      rw [if_neg hlt] at he
      simp at he

theorem buildLoop_tiles (EndAddress : Nat) (State : SEV_SNP_PAGE_STATE)
    (UseLargeEntry : Bool) :
    ∀ (cap BaseAddress dflt : Nat), 1 ≤ cap → BaseAddress < EndAddress →
      (EndAddress - BaseAddress) % EFI_PAGE_SIZE = 0 →
      BaseAddress % EFI_PAGE_SIZE = 0 →
      tiles
          (List.map entryRange
            (buildLoop EndAddress State UseLargeEntry BaseAddress cap dflt).1)
          BaseAddress
          (buildLoop EndAddress State UseLargeEntry BaseAddress cap dflt).2 ∧
        BaseAddress < (buildLoop EndAddress State UseLargeEntry BaseAddress cap dflt).2 ∧
        (buildLoop EndAddress State UseLargeEntry BaseAddress cap dflt).2 ≤ EndAddress ∧
        (EndAddress - (buildLoop EndAddress State UseLargeEntry BaseAddress cap dflt).2) %
            EFI_PAGE_SIZE = 0 ∧
        (buildLoop EndAddress State UseLargeEntry BaseAddress cap dflt).2 %
            EFI_PAGE_SIZE = 0
  | cap + 1, BaseAddress, dflt, _hcap, hlt, hdm, hal => by
    have hdiv : BaseAddress / 2 ^ EFI_PAGE_SHIFT * 2 ^ EFI_PAGE_SHIFT = BaseAddress := by
      simp only [EFI_PAGE_SIZE] at hal
      simp only [EFI_PAGE_SHIFT]
      omega
    simp only [buildLoop, hlt, if_true]
    by_cases hL : UseLargeEntry = true ∧ BaseAddress % SIZE_2MB = 0 ∧
        SIZE_2MB ≤ EndAddress - BaseAddress
    · rw [if_pos hL]
      have hle : BaseAddress + SIZE_2MB ≤ EndAddress := by
        have := hL.2.2
        omega
      have her : entryRange
          { GuestFrameNumber := BaseAddress / 2 ^ EFI_PAGE_SHIFT
            PageSize := PvalidatePageSize2MB
            Operation := MemoryStateToGhcbOp State
            CurrentPage := 0 } = (BaseAddress, SIZE_2MB) := by
        simp [entryRange, hdiv]
      by_cases hrec : BaseAddress + SIZE_2MB < EndAddress ∧ 1 ≤ cap
      · have ih := buildLoop_tiles EndAddress State UseLargeEntry cap
          (BaseAddress + SIZE_2MB) (BaseAddress + SIZE_2MB) hrec.2 hrec.1
          (by simp only [SIZE_2MB, EFI_PAGE_SIZE] at *; omega)
          (by simp only [SIZE_2MB, EFI_PAGE_SIZE] at *; omega)
        refine ⟨?_, ?_, ih.2.2.1, ih.2.2.2.1, ih.2.2.2.2⟩
        · rw [List.map_cons, her, tiles_cons]
          exact ⟨rfl, by simp [SIZE_2MB], ih.1⟩
        · calc BaseAddress < BaseAddress + SIZE_2MB := by simp [SIZE_2MB]
            _ < _ := ih.2.1
      · have hrest : buildLoop EndAddress State UseLargeEntry
            (BaseAddress + SIZE_2MB) cap (BaseAddress + SIZE_2MB) =
            ([], BaseAddress + SIZE_2MB) := by
          match cap with
          | 0 => rfl
          | cap' + 1 =>
            have hnlt : ¬ (BaseAddress + SIZE_2MB < EndAddress) := by
              intro hc
              exact hrec ⟨hc, by omega⟩
            simp only [buildLoop]
            rw [if_neg hnlt]
        rw [hrest]
        refine ⟨?_, by simp [SIZE_2MB], hle,
          by simp only [SIZE_2MB, EFI_PAGE_SIZE] at *; omega,
          by simp only [SIZE_2MB, EFI_PAGE_SIZE] at *; omega⟩
        rw [List.map_cons, List.map_nil, her, tiles_cons]
        exact ⟨rfl, by simp [SIZE_2MB], rfl⟩
    · rw [if_neg hL]
      have hle : BaseAddress + EFI_PAGE_SIZE ≤ EndAddress := by
        simp only [EFI_PAGE_SIZE] at *
        omega
      have her : entryRange
          { GuestFrameNumber := BaseAddress / 2 ^ EFI_PAGE_SHIFT
            PageSize := PvalidatePageSize4K
            Operation := MemoryStateToGhcbOp State
            CurrentPage := 0 } = (BaseAddress, EFI_PAGE_SIZE) := by
        simp [entryRange, hdiv, PvalidatePageSize4K, PvalidatePageSize2MB]
      by_cases hrec : BaseAddress + EFI_PAGE_SIZE < EndAddress ∧ 1 ≤ cap
      · have ih := buildLoop_tiles EndAddress State UseLargeEntry cap
          (BaseAddress + EFI_PAGE_SIZE) (BaseAddress + EFI_PAGE_SIZE) hrec.2 hrec.1
          (by simp only [EFI_PAGE_SIZE] at *; omega)
          (by simp only [EFI_PAGE_SIZE] at *; omega)
        refine ⟨?_, ?_, ih.2.2.1, ih.2.2.2.1, ih.2.2.2.2⟩
        · rw [List.map_cons, her, tiles_cons]
          exact ⟨rfl, by simp [EFI_PAGE_SIZE], ih.1⟩
        · calc BaseAddress < BaseAddress + EFI_PAGE_SIZE := by simp [EFI_PAGE_SIZE]
            _ < _ := ih.2.1
      · have hrest : buildLoop EndAddress State UseLargeEntry
            (BaseAddress + EFI_PAGE_SIZE) cap (BaseAddress + EFI_PAGE_SIZE) =
            ([], BaseAddress + EFI_PAGE_SIZE) := by
          match cap with
          | 0 => rfl
          | cap' + 1 =>
            have hnlt : ¬ (BaseAddress + EFI_PAGE_SIZE < EndAddress) := by
              intro hc
              exact hrec ⟨hc, by omega⟩
            simp only [buildLoop]
            rw [if_neg hnlt]
        rw [hrest]
        refine ⟨?_, by simp [EFI_PAGE_SIZE], hle,
          by simp only [EFI_PAGE_SIZE] at *; omega,
          by simp only [EFI_PAGE_SIZE] at *; omega⟩
        rw [List.map_cons, List.map_nil, her, tiles_cons]
        exact ⟨rfl, by simp [EFI_PAGE_SIZE], rfl⟩

theorem buildBatchGo_nil (EndAddress : Nat) (State : SEV_SNP_PAGE_STATE)
    (UseLargeEntry : Bool) (IndexMax : Nat) :
    ∀ (bf BaseAddress : Nat), ¬ BaseAddress < EndAddress →
      buildBatchGo EndAddress State UseLargeEntry IndexMax BaseAddress bf = []
  | 0, _, _ => rfl
  | bf + 1, BaseAddress, h => by
    simp only [buildBatchGo]
    rw [if_neg h]

theorem buildBatchGo_tiles (EndAddress : Nat) (State : SEV_SNP_PAGE_STATE)
    (UseLargeEntry : Bool) (IndexMax : Nat) (hcap : 1 ≤ IndexMax) :
    ∀ (bf BaseAddress : Nat), EndAddress - BaseAddress ≤ bf →
      BaseAddress ≤ EndAddress →
      (EndAddress - BaseAddress) % EFI_PAGE_SIZE = 0 →
      BaseAddress % EFI_PAGE_SIZE = 0 →
      tiles
        (List.map entryRange
          ((buildBatchGo EndAddress State UseLargeEntry IndexMax BaseAddress bf).flatMap
            (fun i => i.Entry)))
        BaseAddress EndAddress
  | 0, BaseAddress, hbf, hle, _, _ => by
    have : BaseAddress = EndAddress := by omega
    subst this
    simp [buildBatchGo, tiles]
  | bf + 1, BaseAddress, hbf, hle, hdm, hal => by
    by_cases hlt : BaseAddress < EndAddress
    · simp only [buildBatchGo, hlt, if_true, List.flatMap_cons, List.map_append]
      have hb := buildLoop_tiles EndAddress State UseLargeEntry IndexMax BaseAddress
        EndAddress hcap hlt hdm hal
      have hbe : (BuildPageStateBuffer BaseAddress EndAddress State UseLargeEntry
          IndexMax).1.Entry =
          (buildLoop EndAddress State UseLargeEntry BaseAddress IndexMax EndAddress).1 := rfl
      have hb2 : (BuildPageStateBuffer BaseAddress EndAddress State UseLargeEntry
          IndexMax).2 =
          (buildLoop EndAddress State UseLargeEntry BaseAddress IndexMax EndAddress).2 := rfl
      rw [hbe, hb2]
      by_cases hnext :
          (buildLoop EndAddress State UseLargeEntry BaseAddress IndexMax EndAddress).2 <
            EndAddress
      · refine tiles_append _ _ _ _ _ hb.1 ?_
        exact buildBatchGo_tiles EndAddress State UseLargeEntry IndexMax hcap bf _
          (by have := hb.2.1; omega) (le_of_lt hnext) hb.2.2.2.1 hb.2.2.2.2
      · have heq : (buildLoop EndAddress State UseLargeEntry BaseAddress IndexMax
            EndAddress).2 = EndAddress := by
          have := hb.2.2.1
          omega
        rw [buildBatchGo_nil EndAddress State UseLargeEntry IndexMax bf _ hnext]
        simp only [List.flatMap_nil, List.map_nil, List.append_nil]
        have hb1 := hb.1
        rw [heq] at hb1
        exact hb1
    · have : BaseAddress = EndAddress := by omega
      subst this
      rw [buildBatchGo_nil _ _ _ _ _ _ hlt]
      simp [tiles]

/-- C2: for page-aligned `base < end` and a batch capacity of at least one
entry, the entries emitted by `BuildPageStateBuffer` across all batches of
the orchestrator loop exactly tile `[base, end)`: their covered ranges are
consecutive and non-empty, the first starts at `base`, the last ends exactly
at `end`; consequently consecutive ranges are adjacent (strictly increasing,
no gaps, no overlaps) and no entry extends past `end`. -/
theorem coverage_tiles_range (BaseAddress EndAddress : Nat)
    (State : SEV_SNP_PAGE_STATE) (UseLargeEntry : Bool) (IndexMax : Nat)
    (h1 : BaseAddress % EFI_PAGE_SIZE = 0) (h2 : EndAddress % EFI_PAGE_SIZE = 0)
    (h3 : BaseAddress < EndAddress) (h4 : 1 ≤ IndexMax) :
    tiles
        (List.map entryRange
          ((buildBatchSeq EndAddress State UseLargeEntry IndexMax
              BaseAddress).flatMap (fun i => i.Entry)))
        BaseAddress EndAddress ∧
      List.Chain' (fun r s => r.1 + r.2 = s.1)
        (List.map entryRange
          ((buildBatchSeq EndAddress State UseLargeEntry IndexMax
              BaseAddress).flatMap (fun i => i.Entry))) ∧
      ∀ r ∈ List.map entryRange
          ((buildBatchSeq EndAddress State UseLargeEntry IndexMax
              BaseAddress).flatMap (fun i => i.Entry)),
        BaseAddress ≤ r.1 ∧ r.1 + r.2 ≤ EndAddress := by
  have ht := buildBatchGo_tiles EndAddress State UseLargeEntry IndexMax h4
    (EndAddress - BaseAddress) BaseAddress (le_refl _) (le_of_lt h3)
    (by simp only [EFI_PAGE_SIZE] at *; omega) h1
  exact ⟨ht, tiles_chain _ _ _ ht, fun r hr => (tiles_bounds _ _ _ ht).2 r hr⟩

/-- Witness for C2 at `base = 0x1ff000`, `end = 0x201000`, capacity 1: the
two single-entry batches tile the range. -/
theorem coverage_tiles_range_witness :
    (2093056 % EFI_PAGE_SIZE = 0 ∧ 2101248 % EFI_PAGE_SIZE = 0 ∧
        2093056 < 2101248 ∧ 1 ≤ 1) ∧
      tiles
        (List.map entryRange
          ((buildBatchSeq 2101248 SevSnpPagePrivate true 1 2093056).flatMap
            (fun i => i.Entry)))
        2093056 2101248 :=
  ⟨⟨by decide, by decide, by decide, by decide⟩,
    (coverage_tiles_range 2093056 2101248 SevSnpPagePrivate true 1 (by decide)
      (by decide) (by decide) (by decide)).1⟩

/-- C7: an entry emitted by `BuildPageStateBuffer` (from a page-aligned base)
has the Large granule exactly when large entries are permitted, its start
address is 2 MiB-aligned, and at least 2 MiB remains before the end address;
in every other case it has the Small granule. Scenario A: base `0x100000`,
one 4 KiB page, Private, large allowed — exactly one Small Private entry.
Scenario B: base `0x200000`, 512 pages, Shared, large allowed, capacity 1
(≥ 1) — exactly one Large Shared entry. -/
theorem granule_selection :
    (∀ (BaseAddress EndAddress : Nat) (State : SEV_SNP_PAGE_STATE)
        (UseLargeEntry : Bool) (IndexMax : Nat),
      BaseAddress % EFI_PAGE_SIZE = 0 →
      ∀ e ∈ (BuildPageStateBuffer BaseAddress EndAddress State UseLargeEntry
          IndexMax).1.Entry,
        (e.PageSize = PvalidatePageSize2MB ∨ e.PageSize = PvalidatePageSize4K) ∧
        (e.PageSize = PvalidatePageSize2MB ↔
          UseLargeEntry = true ∧
            (e.GuestFrameNumber * 2 ^ EFI_PAGE_SHIFT) % SIZE_2MB = 0 ∧
            e.GuestFrameNumber * 2 ^ EFI_PAGE_SHIFT + SIZE_2MB ≤ EndAddress)) ∧
    BuildPageStateBuffer 1048576 (1048576 + 1 * EFI_PAGE_SIZE) SevSnpPagePrivate
        true 253 =
      ({ Header := { CurrentEntry := 0, EndEntry := 0 }
         Entry := [{ GuestFrameNumber := 256, PageSize := PvalidatePageSize4K,
                     Operation := SNP_PAGE_STATE_PRIVATE, CurrentPage := 0 }] },
        1052672) ∧
    BuildPageStateBuffer 2097152 (2097152 + 512 * EFI_PAGE_SIZE) SevSnpPageShared
        true 1 =
      ({ Header := { CurrentEntry := 0, EndEntry := 0 }
         Entry := [{ GuestFrameNumber := 512, PageSize := PvalidatePageSize2MB,
                     Operation := SNP_PAGE_STATE_SHARED, CurrentPage := 0 }] },
        4194304) := by
  refine ⟨?_, by decide, by decide⟩
  intro BaseAddress EndAddress State UseLargeEntry IndexMax hal e he
  exact (buildLoop_granule EndAddress State UseLargeEntry IndexMax BaseAddress
    EndAddress hal e he).2

/-- The single entry of Scenario B (base `0x200000`, 512 pages, Shared). -/
def scenarioBEntry : SNP_PAGE_STATE_ENTRY :=
  { GuestFrameNumber := 512
    PageSize := PvalidatePageSize2MB
    Operation := SNP_PAGE_STATE_SHARED
    CurrentPage := 0 }

/-- Witness for C7: the general granule-selection part applied to the single
Large entry of Scenario B. -/
theorem granule_selection_witness :
    (scenarioBEntry.PageSize = PvalidatePageSize2MB ∨
      scenarioBEntry.PageSize = PvalidatePageSize4K) ∧
    (scenarioBEntry.PageSize = PvalidatePageSize2MB ↔
      true = true ∧
        (scenarioBEntry.GuestFrameNumber * 2 ^ EFI_PAGE_SHIFT) % SIZE_2MB = 0 ∧
        scenarioBEntry.GuestFrameNumber * 2 ^ EFI_PAGE_SHIFT + SIZE_2MB ≤
          4194304) :=
  granule_selection.1 2097152 4194304 SevSnpPageShared true 1 (by decide)
    scenarioBEntry (by decide)

theorem demoteLoop_spec (pv : PvOracle) (v : Bool) :
    ∀ (n a ret : Nat), 1 ≤ n →
      ∃ m, 1 ≤ m ∧ m ≤ n ∧
        demoteLoop pv v a ret n =
          (pv PvalidatePageSize4K v (a + (m - 1) * EFI_PAGE_SIZE),
            (List.range m).map (fun i =>
              Ev.evPvalidate PvalidatePageSize4K v (a + i * EFI_PAGE_SIZE)
                (pv PvalidatePageSize4K v (a + i * EFI_PAGE_SIZE)))) ∧
        (∀ i, i + 1 < m → pv PvalidatePageSize4K v (a + i * EFI_PAGE_SIZE) = 0) ∧
        (m = n ∨ pv PvalidatePageSize4K v (a + (m - 1) * EFI_PAGE_SIZE) ≠ 0)
  | n + 1, a, ret, _h => by
    by_cases h0 : pv PvalidatePageSize4K v a = 0
    · by_cases hn : 1 ≤ n
      · obtain ⟨m, hm1, hmn, heq, hpref, hlast⟩ :=
          demoteLoop_spec pv v n (a + EFI_PAGE_SIZE) (pv PvalidatePageSize4K v a) hn
        refine ⟨m + 1, by omega, by omega, ?_, ?_, ?_⟩
        · simp only [demoteLoop, ite_not, if_pos h0, heq]
          rw [Prod.mk.injEq]
          constructor
          · show pv PvalidatePageSize4K v (a + EFI_PAGE_SIZE + (m - 1) * EFI_PAGE_SIZE) =
              pv PvalidatePageSize4K v (a + (m + 1 - 1) * EFI_PAGE_SIZE)
            congr 1
            simp only [EFI_PAGE_SIZE]
            omega
          · show Ev.evPvalidate PvalidatePageSize4K v a (pv PvalidatePageSize4K v a) ::
                (List.range m).map (fun i =>
                  Ev.evPvalidate PvalidatePageSize4K v
                    (a + EFI_PAGE_SIZE + i * EFI_PAGE_SIZE)
                    (pv PvalidatePageSize4K v (a + EFI_PAGE_SIZE + i * EFI_PAGE_SIZE))) =
              (List.range (m + 1)).map (fun i =>
                Ev.evPvalidate PvalidatePageSize4K v (a + i * EFI_PAGE_SIZE)
                  (pv PvalidatePageSize4K v (a + i * EFI_PAGE_SIZE)))
            rw [List.range_succ_eq_map, List.map_cons, List.map_map,
              List.cons.injEq]
            refine ⟨by simp, ?_⟩
            apply List.map_congr_left
            intro i _
            simp only [Function.comp_apply, Nat.succ_eq_add_one]
            have harith : a + EFI_PAGE_SIZE + i * EFI_PAGE_SIZE =
                a + (i + 1) * EFI_PAGE_SIZE := by
              simp only [EFI_PAGE_SIZE]
              omega
            rw [harith]
        · intro i hi
          match i with
          | 0 => simpa using h0
          | j + 1 =>
            have := hpref j (by omega)
            have harith : a + EFI_PAGE_SIZE + j * EFI_PAGE_SIZE =
                a + (j + 1) * EFI_PAGE_SIZE := by
              simp only [EFI_PAGE_SIZE]
              omega
            rw [harith] at this
            exact this
        · rcases hlast with hlast | hlast
          · exact Or.inl (by omega)
          · refine Or.inr ?_
            have harith : a + EFI_PAGE_SIZE + (m - 1) * EFI_PAGE_SIZE =
                a + (m + 1 - 1) * EFI_PAGE_SIZE := by
              simp only [EFI_PAGE_SIZE]
              omega
            rw [harith] at hlast
            exact hlast
      · have hn0 : n = 0 := by omega
        subst hn0
        refine ⟨1, le_refl _, le_refl _, ?_, by omega, Or.inl rfl⟩
        simp [demoteLoop, h0, List.range_succ]
    · refine ⟨1, le_refl _, by omega, ?_, by omega, Or.inr (by simpa using h0)⟩
      simp [demoteLoop, h0, List.range_succ]

/-- C3: in `PvalidateRange`'s processing of one entry, a Large (2 MiB) entry
whose PVALIDATE returns the size-mismatch outcome is demoted to 4 KiB
PVALIDATEs with the same direction over the same 2 MiB range in increasing
address order: the `m` issued sub-operations are at `Address + i·4KiB` for
`i < m`, every sub-operation before the last returned zero, and either all
`PAGES_PER_LARGE_ENTRY = 512` ran (covering exactly the 2 MiB range) or the
sequence stopped at the first non-zero outcome, which becomes the entry's
result. A Small entry is never demoted: its single PVALIDATE outcome is
returned as is, size-mismatch included. -/
theorem pvalidate_large_demotion :
    (∀ (pv : PvOracle) (e : SNP_PAGE_STATE_ENTRY),
      e.PageSize = PvalidatePageSize2MB →
      pv PvalidatePageSize2MB (decide (e.Operation = SNP_PAGE_STATE_PRIVATE))
          (e.GuestFrameNumber * 2 ^ EFI_PAGE_SHIFT) = PVALIDATE_RET_SIZE_MISMATCH →
      ∃ m, 1 ≤ m ∧ m ≤ PAGES_PER_LARGE_ENTRY ∧
        (pvalidateEntry pv e).2 =
          Ev.evPvalidate PvalidatePageSize2MB
              (decide (e.Operation = SNP_PAGE_STATE_PRIVATE))
              (e.GuestFrameNumber * 2 ^ EFI_PAGE_SHIFT)
              PVALIDATE_RET_SIZE_MISMATCH ::
            (List.range m).map (fun i =>
              Ev.evPvalidate PvalidatePageSize4K
                (decide (e.Operation = SNP_PAGE_STATE_PRIVATE))
                (e.GuestFrameNumber * 2 ^ EFI_PAGE_SHIFT + i * EFI_PAGE_SIZE)
                (pv PvalidatePageSize4K
                  (decide (e.Operation = SNP_PAGE_STATE_PRIVATE))
                  (e.GuestFrameNumber * 2 ^ EFI_PAGE_SHIFT + i * EFI_PAGE_SIZE))) ∧
        (∀ i, i + 1 < m →
          pv PvalidatePageSize4K (decide (e.Operation = SNP_PAGE_STATE_PRIVATE))
            (e.GuestFrameNumber * 2 ^ EFI_PAGE_SHIFT + i * EFI_PAGE_SIZE) = 0) ∧
        (m = PAGES_PER_LARGE_ENTRY ∨
          pv PvalidatePageSize4K (decide (e.Operation = SNP_PAGE_STATE_PRIVATE))
            (e.GuestFrameNumber * 2 ^ EFI_PAGE_SHIFT + (m - 1) * EFI_PAGE_SIZE) ≠ 0) ∧
        (pvalidateEntry pv e).1 =
          pv PvalidatePageSize4K (decide (e.Operation = SNP_PAGE_STATE_PRIVATE))
            (e.GuestFrameNumber * 2 ^ EFI_PAGE_SHIFT + (m - 1) * EFI_PAGE_SIZE)) ∧
    (∀ (pv : PvOracle) (e : SNP_PAGE_STATE_ENTRY),
      e.PageSize = PvalidatePageSize4K →
      pvalidateEntry pv e =
        (pv PvalidatePageSize4K (decide (e.Operation = SNP_PAGE_STATE_PRIVATE))
            (e.GuestFrameNumber * 2 ^ EFI_PAGE_SHIFT),
          [Ev.evPvalidate PvalidatePageSize4K
            (decide (e.Operation = SNP_PAGE_STATE_PRIVATE))
            (e.GuestFrameNumber * 2 ^ EFI_PAGE_SHIFT)
            (pv PvalidatePageSize4K (decide (e.Operation = SNP_PAGE_STATE_PRIVATE))
              (e.GuestFrameNumber * 2 ^ EFI_PAGE_SHIFT))])) := by
  constructor
  · intro pv e hL hm
    obtain ⟨m, hm1, hmn, heq, hpref, hlast⟩ :=
      demoteLoop_spec pv (decide (e.Operation = SNP_PAGE_STATE_PRIVATE))
        PAGES_PER_LARGE_ENTRY (e.GuestFrameNumber * 2 ^ EFI_PAGE_SHIFT)
        PVALIDATE_RET_SIZE_MISMATCH (by simp [PAGES_PER_LARGE_ENTRY])
    refine ⟨m, hm1, hmn, ?_, hpref, hlast, ?_⟩
    · simp only [pvalidateEntry, hL, hm, heq, and_self, if_true]
    · simp only [pvalidateEntry, hL, hm, heq, and_self, if_true]
  · intro pv e hps
    simp only [pvalidateEntry, hps]
    rw [if_neg]
    intro hc
    exact absurd hc.2 (by simp [PvalidatePageSize4K, PvalidatePageSize2MB])

/-- A PVALIDATE oracle reporting size-mismatch on every 2 MiB request and
success on every 4 KiB request. -/
def demoPv : PvOracle :=
  fun ps _ _ => if ps = PvalidatePageSize2MB then PVALIDATE_RET_SIZE_MISMATCH else 0

/-- The Large Private entry at address `0x200000` used to witness demotion. -/
def demoEntry : SNP_PAGE_STATE_ENTRY :=
  { GuestFrameNumber := 512
    PageSize := PvalidatePageSize2MB
    Operation := SNP_PAGE_STATE_PRIVATE
    CurrentPage := 0 }

/-- Witness for C3: the demotion characterization applied to `demoEntry`
under `demoPv`. -/
theorem pvalidate_large_demotion_witness :
    ∃ m, 1 ≤ m ∧ m ≤ PAGES_PER_LARGE_ENTRY ∧
      (pvalidateEntry demoPv demoEntry).2 =
        Ev.evPvalidate PvalidatePageSize2MB
            (decide (demoEntry.Operation = SNP_PAGE_STATE_PRIVATE))
            (demoEntry.GuestFrameNumber * 2 ^ EFI_PAGE_SHIFT)
            PVALIDATE_RET_SIZE_MISMATCH ::
          (List.range m).map (fun i =>
            Ev.evPvalidate PvalidatePageSize4K
              (decide (demoEntry.Operation = SNP_PAGE_STATE_PRIVATE))
              (demoEntry.GuestFrameNumber * 2 ^ EFI_PAGE_SHIFT + i * EFI_PAGE_SIZE)
              (demoPv PvalidatePageSize4K
                (decide (demoEntry.Operation = SNP_PAGE_STATE_PRIVATE))
                (demoEntry.GuestFrameNumber * 2 ^ EFI_PAGE_SHIFT +
                  i * EFI_PAGE_SIZE))) ∧
      (∀ i, i + 1 < m →
        demoPv PvalidatePageSize4K
          (decide (demoEntry.Operation = SNP_PAGE_STATE_PRIVATE))
          (demoEntry.GuestFrameNumber * 2 ^ EFI_PAGE_SHIFT + i * EFI_PAGE_SIZE) = 0) ∧
      (m = PAGES_PER_LARGE_ENTRY ∨
        demoPv PvalidatePageSize4K
          (decide (demoEntry.Operation = SNP_PAGE_STATE_PRIVATE))
          (demoEntry.GuestFrameNumber * 2 ^ EFI_PAGE_SHIFT +
            (m - 1) * EFI_PAGE_SIZE) ≠ 0) ∧
      (pvalidateEntry demoPv demoEntry).1 =
        demoPv PvalidatePageSize4K
          (decide (demoEntry.Operation = SNP_PAGE_STATE_PRIVATE))
          (demoEntry.GuestFrameNumber * 2 ^ EFI_PAGE_SHIFT +
            (m - 1) * EFI_PAGE_SIZE) :=
  pvalidate_large_demotion.1 demoPv demoEntry (by decide) (by decide)

theorem vmgLoop_k_mono (hv : HvOracle) (EndEntry : Nat) :
    ∀ (fuel cur k : Nat), k ≤ (vmgLoop hv EndEntry cur k fuel).k
  | 0, cur, k => by
    simp only [vmgLoop]
    split <;> simp
  | fuel + 1, cur, k => by
    simp only [vmgLoop]
    by_cases hc : cur ≤ EndEntry
    · rw [if_pos hc]
      by_cases hb : (hv k).1 ≠ 0 ∨ (hv k).2.1 ≠ 0
      · rw [if_pos hb]
        simp
      · rw [if_neg hb]
        have := vmgLoop_k_mono hv EndEntry fuel (hv k).2.2 (k + 1)
        dsimp only
        omega
    · rw [if_neg hc]

theorem vmgLoop_ok_drained (hv : HvOracle) (EndEntry : Nat) :
    ∀ (fuel cur k : Nat),
      (vmgLoop hv EndEntry cur k fuel).res = RunRes.ok →
      EndEntry < (vmgLoop hv EndEntry cur k fuel).cur
  | 0, cur, k => by
    simp only [vmgLoop]
    split
    · intro h
      exact absurd h (by simp)
    · intro _
      dsimp only
      omega
  | fuel + 1, cur, k => by
    simp only [vmgLoop]
    by_cases hc : cur ≤ EndEntry
    · rw [if_pos hc]
      by_cases hb : (hv k).1 ≠ 0 ∨ (hv k).2.1 ≠ 0
      · rw [if_pos hb]
        intro h
        exact absurd h (by simp)
      · rw [if_neg hb]
        exact vmgLoop_ok_drained hv EndEntry fuel (hv k).2.2 (k + 1)
    · rw [if_neg hc]
      intro _
      dsimp only
      omega

theorem vmgLoop_resubmits (hv : HvOracle) (EndEntry : Nat) :
    ∀ (m fuel cur k : Nat), cur ≤ EndEntry → m < fuel →
      (∀ i, i < m → (hv (k + i)).1 = 0 ∧ (hv (k + i)).2.1 = 0 ∧
        (hv (k + i)).2.2 ≤ EndEntry) →
      k + m + 1 ≤ (vmgLoop hv EndEntry cur k fuel).k
  | 0, fuel + 1, cur, k, hc, _hm, _hgood => by
    simp only [vmgLoop]
    rw [if_pos hc]
    by_cases hb : (hv k).1 ≠ 0 ∨ (hv k).2.1 ≠ 0
    · rw [if_pos hb]
    · rw [if_neg hb]
      have := vmgLoop_k_mono hv EndEntry fuel (hv k).2.2 (k + 1)
      dsimp only
      omega
  | m + 1, fuel + 1, cur, k, hc, hm, hgood => by
    simp only [vmgLoop]
    rw [if_pos hc]
    have h0 := hgood 0 (by omega)
    simp only [Nat.add_zero] at h0
    have hb : ¬ ((hv k).1 ≠ 0 ∨ (hv k).2.1 ≠ 0) := by
      push_neg
      exact ⟨h0.1, h0.2.1⟩
    rw [if_neg hb]
    have ih := vmgLoop_resubmits hv EndEntry m fuel (hv k).2.2 (k + 1) h0.2.2
      (by omega)
      (by
        intro i hi
        have := hgood (i + 1) (by omega)
        have harith : k + (i + 1) = k + 1 + i := by omega
        rw [harith] at this
        exact this)
    dsimp only
    omega

/-- C4: a `PageStateChangeVmgExit` round (within its capacity) returns
normally only once the shared-buffer header reports
`CurrentEntry > EndEntry`; the copied entries in the shared buffer are
exactly the submitted slice and are never modified by the guest; and as long
as the hypervisor answers with zero status, zero `SwExitInfo2` and a
`CurrentEntry` still at most `EndEntry`, the guest issues yet another exit
call (at least `m + 1` calls after `m` such partial resumptions). -/
theorem round_draining (hv : HvOracle) (maxE : Nat)
    (Start : List SNP_PAGE_STATE_ENTRY) (Count k fuel : Nat)
    (hcm : Count ≤ maxE) :
    ((PageStateChangeVmgExit hv maxE Start Count k fuel).res = RunRes.ok →
      (PageStateChangeVmgExit hv maxE Start Count k fuel).ghcb.Header.EndEntry <
        (PageStateChangeVmgExit hv maxE Start Count k fuel).ghcb.Header.CurrentEntry) ∧
    (PageStateChangeVmgExit hv maxE Start Count k fuel).ghcb.Entry =
      Start.take Count ∧
    (∀ m, m < fuel →
      (∀ i, i < m → (hv (k + i)).1 = 0 ∧ (hv (k + i)).2.1 = 0 ∧
        (hv (k + i)).2.2 ≤ (Count + 2 ^ 16 - 1) % 2 ^ 16) →
      k + m + 1 ≤ (PageStateChangeVmgExit hv maxE Start Count k fuel).k) := by
  have hno : ¬ Count > maxE := by omega
  simp only [PageStateChangeVmgExit, hno, if_false]
  refine ⟨?_, trivial, ?_⟩
  · intro h
    exact vmgLoop_ok_drained hv ((Count + 2 ^ 16 - 1) % 2 ^ 16) fuel 0 k h
  · intro m hm hgood
    exact vmgLoop_resubmits hv ((Count + 2 ^ 16 - 1) % 2 ^ 16) m fuel 0 k
      (by omega) hm hgood

/-- A hypervisor oracle that leaves `CurrentEntry` at 0 on its first two exit
calls (partial resumption) and completes on the third. -/
def partialHv : HvOracle :=
  fun k => if k < 2 then (0, 0, 0) else (0, 0, 1)

/-- Witness for C4: under `partialHv`, a one-entry round completes with the
cursor beyond `EndEntry`, an unmodified shared buffer, and three exit calls. -/
theorem round_draining_witness :
    (PageStateChangeVmgExit partialHv 253 [demoEntry] 1 0 5).ghcb.Header.EndEntry <
      (PageStateChangeVmgExit partialHv 253 [demoEntry] 1 0 5).ghcb.Header.CurrentEntry ∧
    (PageStateChangeVmgExit partialHv 253 [demoEntry] 1 0 5).ghcb.Entry =
      [demoEntry].take 1 ∧
    0 + 2 + 1 ≤ (PageStateChangeVmgExit partialHv 253 [demoEntry] 1 0 5).k :=
  ⟨(round_draining partialHv 253 [demoEntry] 1 0 5 (by decide)).1 (by decide),
    (round_draining partialHv 253 [demoEntry] 1 0 5 (by decide)).2.1,
    (round_draining partialHv 253 [demoEntry] 1 0 5 (by decide)).2.2 2 (by decide)
      (by
        intro i hi
        interval_cases i <;> decide)⟩

theorem vmgLoop_not_term_all_good (hv : HvOracle) (EndEntry : Nat) :
    ∀ (fuel cur k : Nat), (vmgLoop hv EndEntry cur k fuel).res ≠ RunRes.term →
      ∀ j, k ≤ j → j < (vmgLoop hv EndEntry cur k fuel).k →
        (hv j).1 = 0 ∧ (hv j).2.1 = 0
  | 0, cur, k => by
    intro _ j hj1 hj2
    simp only [vmgLoop] at hj2
    split at hj2 <;> dsimp only at hj2 <;> omega
  | fuel + 1, cur, k => by
    intro hres j hj1 hj2
    simp only [vmgLoop] at hres hj2 ⊢
    by_cases hc : cur ≤ EndEntry
    · rw [if_pos hc] at hres hj2
      by_cases hb : (hv k).1 ≠ 0 ∨ (hv k).2.1 ≠ 0
      · rw [if_pos hb] at hres
        exact absurd rfl hres
      · rw [if_neg hb] at hres hj2
        dsimp only at hres hj2
        push_neg at hb
        by_cases hjk : j = k
        · subst hjk
          exact hb
        · exact vmgLoop_not_term_all_good hv EndEntry fuel (hv k).2.2 (k + 1)
            hres j (by omega) hj2
    · rw [if_neg hc] at hj2
      dsimp only at hj2
      omega

theorem vmgLoop_term_trace (hv : HvOracle) (EndEntry : Nat) :
    ∀ (fuel cur k : Nat), (vmgLoop hv EndEntry cur k fuel).res = RunRes.term →
      ∃ pre, (vmgLoop hv EndEntry cur k fuel).trace = pre ++ snpTerminateTrace
  | 0, cur, k => by
    intro h
    simp only [vmgLoop] at h
    split at h <;> simp at h
  | fuel + 1, cur, k => by
    intro h
    simp only [vmgLoop] at h ⊢
    by_cases hc : cur ≤ EndEntry
    · rw [if_pos hc] at h ⊢
      by_cases hb : (hv k).1 ≠ 0 ∨ (hv k).2.1 ≠ 0
      · rw [if_pos hb]
        exact ⟨[Ev.evVmgExitCall (hv k).1 (hv k).2.1], rfl⟩
      · rw [if_neg hb] at h ⊢
        dsimp only at h ⊢
        obtain ⟨pre, hpre⟩ :=
          vmgLoop_term_trace hv EndEntry fuel (hv k).2.2 (k + 1) h
        exact ⟨Ev.evVmgExitCall (hv k).1 (hv k).2.1 :: pre, by
          rw [hpre]
          simp⟩
    · rw [if_neg hc] at h
      simp at h

theorem vmgLoop_no_done (hv : HvOracle) (EndEntry : Nat) :
    ∀ (fuel cur k : Nat),
      Ev.evVmgDone ∉ (vmgLoop hv EndEntry cur k fuel).trace
  | 0, cur, k => by
    simp only [vmgLoop]
    split <;> simp
  | fuel + 1, cur, k => by
    simp only [vmgLoop]
    by_cases hc : cur ≤ EndEntry
    · rw [if_pos hc]
      by_cases hb : (hv k).1 ≠ 0 ∨ (hv k).2.1 ≠ 0
      · rw [if_pos hb]
        simp [snpTerminateTrace]
      · rw [if_neg hb]
        dsimp only
        simp only [List.mem_cons, not_or]
        exact ⟨by simp, vmgLoop_no_done hv EndEntry fuel (hv k).2.2 (k + 1)⟩
    · rw [if_neg hc]
      simp

/-- C5: if any exit call issued during a round returns a non-zero transport
status or a non-zero `SwExitInfo2`, the round ends in the non-returning
termination path, whose trace is final; a round returns normally only when
every issued call reported zero status and zero `SwExitInfo2`, so no error
value ever reaches the caller; and the termination path consists exactly of
the fixed termination request (function = terminate-request, reason-code-set
= GHCB trust boundary, reason-code = general failure), the MSR-protocol
VMGEXIT, and the unconditional dead loop. -/
theorem fatal_exit_terminates (hv : HvOracle) (maxE : Nat)
    (Start : List SNP_PAGE_STATE_ENTRY) (Count k fuel : Nat) :
    ((∃ j, k ≤ j ∧ j < (PageStateChangeVmgExit hv maxE Start Count k fuel).k ∧
        ((hv j).1 ≠ 0 ∨ (hv j).2.1 ≠ 0)) →
      (PageStateChangeVmgExit hv maxE Start Count k fuel).res = RunRes.term ∧
      ∃ pre, (PageStateChangeVmgExit hv maxE Start Count k fuel).trace =
        pre ++ snpTerminateTrace) ∧
    ((PageStateChangeVmgExit hv maxE Start Count k fuel).res = RunRes.ok →
      ∀ j, k ≤ j → j < (PageStateChangeVmgExit hv maxE Start Count k fuel).k →
        (hv j).1 = 0 ∧ (hv j).2.1 = 0) ∧
    snpTerminateTrace =
      [Ev.evTermMsrWrite
          (GHCB_INFO_TERMINATE_REQUEST + GHCB_TERMINATE_GHCB * 4096 +
            GHCB_TERMINATE_GHCB_GENERAL * 65536),
        Ev.evTermVmgExit, Ev.evDeadLoop] := by
  by_cases hov : Count > maxE
  · simp only [PageStateChangeVmgExit, hov, if_true]
    refine ⟨?_, ?_, by decide⟩
    · intro _
      exact ⟨by simp, [], by simp⟩
    · intro h
      exact absurd h (by simp)
  · simp only [PageStateChangeVmgExit, hov, if_false]
    refine ⟨?_, ?_, by decide⟩
    · intro ⟨j, hj1, hj2, hbad⟩
      have hterm : (vmgLoop hv ((Count + 2 ^ 16 - 1) % 2 ^ 16) 0 k fuel).res =
          RunRes.term := by
        by_contra hnt
        have := vmgLoop_not_term_all_good hv ((Count + 2 ^ 16 - 1) % 2 ^ 16)
          fuel 0 k hnt j hj1 hj2
        tauto
      obtain ⟨pre, hpre⟩ :=
        vmgLoop_term_trace hv ((Count + 2 ^ 16 - 1) % 2 ^ 16) fuel 0 k hterm
      refine ⟨hterm, Ev.evVmgInit :: pre, ?_⟩
      rw [if_neg (by rw [hterm]; simp), hpre]
      simp
    · intro h j hj1 hj2
      exact vmgLoop_not_term_all_good hv ((Count + 2 ^ 16 - 1) % 2 ^ 16) fuel
        0 k (by rw [h]; simp) j hj1 hj2

/-- A hypervisor oracle whose every exit call fails with status 1. -/
def badHv : HvOracle := fun _ => (1, 0, 0)

/-- A hypervisor oracle that completes any round on the first exit call. -/
def goodHv : HvOracle := fun _ => (0, 0, 65536)

theorem fatal_exit_terminates_witness :
    (PageStateChangeVmgExit badHv 253 [demoEntry] 1 0 5).res = RunRes.term ∧
    ∃ pre, (PageStateChangeVmgExit badHv 253 [demoEntry] 1 0 5).trace =
      pre ++ snpTerminateTrace :=
  (fatal_exit_terminates badHv 253 [demoEntry] 1 0 5).1
    ⟨0, by decide, by decide, by decide⟩

/-- Counterexample to C6 as stated: a run whose first exit call fails opens
the session, transfers control to the termination path, and never closes the
session. -/
theorem session_left_open_cex :
    (PageStateChangeVmgExit badHv 253 [demoEntry] 1 0 5).res = RunRes.term ∧
    Ev.evVmgInit ∈ (PageStateChangeVmgExit badHv 253 [demoEntry] 1 0 5).trace ∧
    Ev.evTermMsrWrite terminateMsrValue ∈
      (PageStateChangeVmgExit badHv 253 [demoEntry] 1 0 5).trace ∧
    Ev.evVmgDone ∉ (PageStateChangeVmgExit badHv 253 [demoEntry] 1 0 5).trace := by
  decide

/-- C6 (amended): the exchange session is closed (`CcExitVmgDone`, restoring
the saved interrupt-masking state) in exactly one situation: after the round
reaches full completion (`CurrentEntry > EndEntry`), where it is the last
event; on a fatal exit error the guest requests termination with the session
still open — no session-close event occurs on the termination path. -/
theorem session_close_iff (hv : HvOracle) (maxE : Nat)
    (Start : List SNP_PAGE_STATE_ENTRY) (Count k fuel : Nat) :
    (Ev.evVmgDone ∈ (PageStateChangeVmgExit hv maxE Start Count k fuel).trace ↔
      (PageStateChangeVmgExit hv maxE Start Count k fuel).res = RunRes.ok) ∧
    ((PageStateChangeVmgExit hv maxE Start Count k fuel).res = RunRes.ok →
      ∃ pre, (PageStateChangeVmgExit hv maxE Start Count k fuel).trace =
          pre ++ [Ev.evVmgDone] ∧
        (PageStateChangeVmgExit hv maxE Start Count k fuel).ghcb.Header.EndEntry <
          (PageStateChangeVmgExit hv maxE Start Count k fuel).ghcb.Header.CurrentEntry) ∧
    ((PageStateChangeVmgExit hv maxE Start Count k fuel).res = RunRes.term →
      Ev.evVmgDone ∉ (PageStateChangeVmgExit hv maxE Start Count k fuel).trace) := by
  by_cases hov : Count > maxE
  · simp only [PageStateChangeVmgExit, hov, if_true]
    refine ⟨?_, ?_, ?_⟩
    · constructor
      · intro h
        exact absurd h (by decide)
      · intro h
        exact absurd h (by simp)
    · intro h
      exact absurd h (by simp)
    · intro _
      decide
  · simp only [PageStateChangeVmgExit, hov, if_false]
    have hdrain := vmgLoop_ok_drained hv ((Count + 2 ^ 16 - 1) % 2 ^ 16) fuel 0 k
    have hnodone := vmgLoop_no_done hv ((Count + 2 ^ 16 - 1) % 2 ^ 16) fuel 0 k
    by_cases hres : (vmgLoop hv ((Count + 2 ^ 16 - 1) % 2 ^ 16) 0 k fuel).res =
        RunRes.ok
    · rw [if_pos hres]
      refine ⟨?_, ?_, ?_⟩
      · constructor
        · intro _
          exact hres
        · intro _
          simp
      · intro _
        refine ⟨Ev.evVmgInit ::
          (vmgLoop hv ((Count + 2 ^ 16 - 1) % 2 ^ 16) 0 k fuel).trace, by simp, ?_⟩
        exact hdrain hres
      · intro h
        rw [hres] at h
        exact absurd h (by simp)
    · rw [if_neg hres]
      refine ⟨?_, ?_, ?_⟩
      · constructor
        · intro h
          simp only [List.mem_cons] at h
          rcases h with h | h
          · exact absurd h (by simp)
          · exact absurd h hnodone
        · intro h
          exact absurd h hres
      · intro h
        exact absurd h hres
      · intro _
        simp only [List.mem_cons, not_or]
        exact ⟨by simp, hnodone⟩

/-- Witness for the amended C6: under `goodHv` the round completes and the
session-close event is present, last in the trace, after draining. -/
theorem session_close_iff_witness :
    Ev.evVmgDone ∈ (PageStateChangeVmgExit goodHv 253 [demoEntry] 1 0 5).trace ∧
    ∃ pre, (PageStateChangeVmgExit goodHv 253 [demoEntry] 1 0 5).trace =
        pre ++ [Ev.evVmgDone] ∧
      (PageStateChangeVmgExit goodHv 253 [demoEntry] 1 0 5).ghcb.Header.EndEntry <
        (PageStateChangeVmgExit goodHv 253 [demoEntry] 1 0 5).ghcb.Header.CurrentEntry :=
  ⟨(session_close_iff goodHv 253 [demoEntry] 1 0 5).1.mpr (by decide),
    (session_close_iff goodHv 253 [demoEntry] 1 0 5).2.1 (by decide)⟩

theorem vmgLoop_done_now (hv : HvOracle) (EndEntry : Nat) :
    ∀ (fuel cur k : Nat), ¬ cur ≤ EndEntry →
      vmgLoop hv EndEntry cur k fuel = ⟨RunRes.ok, cur, k, fuel, []⟩
  | 0, cur, k, h => by
    simp only [vmgLoop]
    rw [if_neg h]
  | fuel + 1, cur, k, h => by
    simp only [vmgLoop]
    rw [if_neg h]

theorem vmgLoop_coop (hv : HvOracle) (EndEntry : Nat)
    (hhv : ∀ j, hv j = (0, 0, 65536)) (hend : EndEntry < 65536) :
    ∀ (fuel k : Nat), 1 ≤ fuel →
      vmgLoop hv EndEntry 0 k fuel =
        ⟨RunRes.ok, 65536, k + 1, fuel - 1, [Ev.evVmgExitCall 0 0]⟩
  | fuel + 1, k, _ => by
    simp only [vmgLoop]
    rw [if_pos (by omega : 0 ≤ EndEntry), hhv k]
    rw [if_neg (by simp)]
    rw [vmgLoop_done_now hv EndEntry fuel 65536 (k + 1) (by omega)]
    rfl

theorem pscVmgExit_coop (hv : HvOracle) (maxE : Nat)
    (Start : List SNP_PAGE_STATE_ENTRY) (Count k fuel : Nat)
    (hhv : ∀ j, hv j = (0, 0, 65536)) (hcm : Count ≤ maxE) (hf : 1 ≤ fuel) :
    PageStateChangeVmgExit hv maxE Start Count k fuel =
      { res := RunRes.ok
        ghcb := { Header := { CurrentEntry := 65536
                              EndEntry := (Count + 2 ^ 16 - 1) % 2 ^ 16 }
                  Entry := Start.take Count }
        overflow := false
        k := k + 1
        fuel := fuel - 1
        trace := [Ev.evVmgInit, Ev.evVmgExitCall 0 0, Ev.evVmgDone] } := by
  have hov : ¬ Count > maxE := by omega
  simp only [PageStateChangeVmgExit, hov, if_false]
  rw [vmgLoop_coop hv ((Count + 2 ^ 16 - 1) % 2 ^ 16) hhv (by omega) fuel k hf]
  simp

theorem pageStateChangeGo_coop (hv : HvOracle) (maxE : Nat)
    (entries : List SNP_PAGE_STATE_ENTRY) (EndEntry : Nat)
    (hhv : ∀ j, hv j = (0, 0, 65536)) (hm : 1 ≤ maxE) (hw : EndEntry < 65535) :
    ∀ (roundFuel Index k fuel : Nat),
      EndEntry + 1 - Index ≤ roundFuel →
      EndEntry + 1 - Index ≤ fuel →
      (pageStateChangeGo hv maxE entries EndEntry Index k fuel roundFuel).res =
          RunRes.ok ∧
        ((pageStateChangeGo hv maxE entries EndEntry Index k fuel
            roundFuel).rounds.map (fun r => r.2.ghcb.Entry)).flatten =
          (entries.drop Index).take (EndEntry + 1 - Index) ∧
        ∀ r ∈ (pageStateChangeGo hv maxE entries EndEntry Index k fuel
            roundFuel).rounds,
          1 ≤ r.1 ∧ r.1 ≤ maxE ∧ r.2.res = RunRes.ok ∧
            r.2.ghcb.Header.EndEntry < r.2.ghcb.Header.CurrentEntry
  | 0, Index, k, fuel, hrf, _hfl => by
    have hni : ¬ Index ≤ EndEntry := by omega
    simp only [pageStateChangeGo]
    rw [if_neg hni]
    refine ⟨rfl, ?_, by simp⟩
    have : EndEntry + 1 - Index = 0 := by omega
    simp [this]
  | roundFuel + 1, Index, k, fuel, hrf, hfl => by
    by_cases hidx : Index ≤ EndEntry
    · have hc1 : 1 ≤ min (EndEntry - Index + 1) maxE := by omega
      have hcm : min (EndEntry - Index + 1) maxE ≤ maxE := by omega
      have hcr : min (EndEntry - Index + 1) maxE ≤ EndEntry - Index + 1 := by omega
      have hfl1 : 1 ≤ fuel := by omega
      have her := pscVmgExit_coop hv maxE (entries.drop Index)
        (min (EndEntry - Index + 1) maxE) k fuel hhv hcm hfl1
      have hnw : (Index + min (EndEntry - Index + 1) maxE) % 2 ^ 16 =
          Index + min (EndEntry - Index + 1) maxE := by
        apply Nat.mod_eq_of_lt
        omega
      obtain ⟨ih1, ih2, ih3⟩ := pageStateChangeGo_coop hv maxE entries EndEntry
        hhv hm hw roundFuel (Index + min (EndEntry - Index + 1) maxE) (k + 1)
        (fuel - 1) (by omega) (by omega)
      simp only [pageStateChangeGo, her, hnw]
      rw [if_pos hidx]
      simp only [if_true]
      refine ⟨ih1, ?_, ?_⟩
      · simp only [List.map_cons, List.flatten_cons, ih2]
        have hsplit : EndEntry + 1 - Index =
            min (EndEntry - Index + 1) maxE +
              (EndEntry + 1 - (Index + min (EndEntry - Index + 1) maxE)) := by
          omega
        rw [hsplit, List.take_add, List.drop_drop]
      · intro r hr
        rcases List.mem_cons.mp hr with hr | hr
        · subst hr
          refine ⟨hc1, hcm, rfl, ?_⟩
          dsimp only
          omega
        · exact ih3 r hr
    · simp only [pageStateChangeGo]
      rw [if_neg hidx]
      refine ⟨rfl, ?_, by simp⟩
      have : EndEntry + 1 - Index = 0 := by omega
      simp [this]


theorem pscVmgExit_no_overflow (hv : HvOracle) (maxE : Nat)
    (Start : List SNP_PAGE_STATE_ENTRY) (Count k fuel : Nat)
    (hcm : Count ≤ maxE) :
    (PageStateChangeVmgExit hv maxE Start Count k fuel).overflow = false := by
  have hov : ¬ Count > maxE := by omega
  simp only [PageStateChangeVmgExit, hov, if_false]

theorem pageStateChangeGo_counts (hv : HvOracle) (maxE : Nat)
    (entries : List SNP_PAGE_STATE_ENTRY) (EndEntry : Nat) (hm : 1 ≤ maxE) :
    ∀ (roundFuel Index k fuel : Nat),
      ∀ r ∈ (pageStateChangeGo hv maxE entries EndEntry Index k fuel
          roundFuel).rounds,
        1 ≤ r.1 ∧ r.1 ≤ maxE ∧ r.2.overflow = false
  | 0, Index, k, fuel => by
    intro r hr
    simp only [pageStateChangeGo] at hr
    split at hr <;> simp at hr
  | roundFuel + 1, Index, k, fuel => by
    intro r hr
    by_cases hidx : Index ≤ EndEntry
    · have hc1 : 1 ≤ min (EndEntry - Index + 1) maxE := by omega
      have hcm : min (EndEntry - Index + 1) maxE ≤ maxE := by omega
      simp only [pageStateChangeGo] at hr
      rw [if_pos hidx] at hr
      by_cases hres : (PageStateChangeVmgExit hv maxE (entries.drop Index)
          (min (EndEntry - Index + 1) maxE) k fuel).res = RunRes.ok
      · rw [if_pos hres] at hr
        dsimp only at hr
        rcases List.mem_cons.mp hr with hr | hr
        · subst hr
          exact ⟨hc1, hcm, pscVmgExit_no_overflow hv maxE _ _ k fuel hcm⟩
        · exact pageStateChangeGo_counts hv maxE entries EndEntry hm roundFuel
            _ _ _ r hr
      · rw [if_neg hres] at hr
        dsimp only at hr
        rcases List.mem_cons.mp hr with hr | hr
        · subst hr
          exact ⟨hc1, hcm, pscVmgExit_no_overflow hv maxE _ _ k fuel hcm⟩
        · simp at hr
    · simp only [pageStateChangeGo] at hr
      rw [if_neg hidx] at hr
      simp at hr

instance : Inhabited ExitRes :=
  ⟨{ res := RunRes.ok
     ghcb := { Header := { CurrentEntry := 0, EndEntry := 0 }, Entry := [] }
     overflow := false
     k := 0, fuel := 0, trace := [] }⟩

/-- A two-entry batch used as a concrete instance. -/
def infoTwo : SNP_PAGE_STATE_CHANGE_INFO :=
  { Header := { CurrentEntry := 0, EndEntry := 1 }
    Entry := [demoEntry, demoEntry] }

/-- The 4096-page batch of Scenario C. -/
def entries4096 : List SNP_PAGE_STATE_ENTRY :=
  (List.range 4096).map (fun i =>
    { GuestFrameNumber := i, PageSize := PvalidatePageSize4K,
      Operation := SNP_PAGE_STATE_PRIVATE, CurrentPage := 0 })

/-- The batch structure of Scenario C: 4096 entries, header `0 … 4095`. -/
def info4096 : SNP_PAGE_STATE_CHANGE_INFO :=
  { Header := { CurrentEntry := 0, EndEntry := 4095 }, Entry := entries4096 }

/-- C10: every slice submitted by `PageStateChange` (which always runs with
the architectural maximum `SNP_PAGE_STATE_MAX_ENTRY`) has an entry count
between 1 and `SNP_PAGE_STATE_MAX_ENTRY` — the count is the minimum of the
remaining entries and the maximum, and a round is only issued while entries
remain — so the overflow-termination branch at the top of
`PageStateChangeVmgExit` is never taken in any round reached from
`PageStateChange`. -/
theorem slice_counts_in_range (hv : HvOracle) (Info : SNP_PAGE_STATE_CHANGE_INFO)
    (k fuel roundFuel : Nat) :
    ∀ r ∈ (PageStateChange hv SNP_PAGE_STATE_MAX_ENTRY Info k fuel
        roundFuel).rounds,
      1 ≤ r.1 ∧ r.1 ≤ SNP_PAGE_STATE_MAX_ENTRY ∧ r.2.overflow = false := by
  intro r hr
  exact pageStateChangeGo_counts hv SNP_PAGE_STATE_MAX_ENTRY Info.Entry
    Info.Header.EndEntry (by decide) roundFuel Info.Header.CurrentEntry k fuel
    r hr

theorem slice_counts_in_range_witness :
    1 ≤ ((PageStateChange goodHv SNP_PAGE_STATE_MAX_ENTRY infoTwo 0 5
        5).rounds.headI).1 ∧
    ((PageStateChange goodHv SNP_PAGE_STATE_MAX_ENTRY infoTwo 0 5
        5).rounds.headI).1 ≤ SNP_PAGE_STATE_MAX_ENTRY ∧
    ((PageStateChange goodHv SNP_PAGE_STATE_MAX_ENTRY infoTwo 0 5
        5).rounds.headI).2.overflow = false :=
  slice_counts_in_range goodHv infoTwo 0 5 5 _ (by decide)

/-- C8: `PageStateChange` splits a batch into successive contiguous slices of
at most `maxE` entries — the submitted slices concatenate back to exactly the
batch's entries `0 … EndEntry` — one fully-drained exchange round per slice
(each round ends `ok` with its shared-buffer cursor past its `EndEntry`
before the next starts). Scenario C: a 4096-entry batch with a 64-entry
exchange maximum yields exactly 64 rounds, every one fully drained. -/
theorem multi_round_slicing (hv : HvOracle) (maxE : Nat)
    (Info : SNP_PAGE_STATE_CHANGE_INFO) (k fuel roundFuel : Nat)
    (hhv : ∀ j, hv j = (0, 0, 65536)) (hm : 1 ≤ maxE)
    (hw : Info.Header.EndEntry < 65535) (hcur : Info.Header.CurrentEntry = 0)
    (hrf : Info.Header.EndEntry + 1 ≤ roundFuel)
    (hfl : Info.Header.EndEntry + 1 ≤ fuel) :
    ((PageStateChange hv maxE Info k fuel roundFuel).res = RunRes.ok ∧
      ((PageStateChange hv maxE Info k fuel roundFuel).rounds.map
          (fun r => r.2.ghcb.Entry)).flatten =
        Info.Entry.take (Info.Header.EndEntry + 1) ∧
      ∀ r ∈ (PageStateChange hv maxE Info k fuel roundFuel).rounds,
        1 ≤ r.1 ∧ r.1 ≤ maxE ∧ r.2.res = RunRes.ok ∧
          r.2.ghcb.Header.EndEntry < r.2.ghcb.Header.CurrentEntry) ∧
    (PageStateChange goodHv 64 info4096 0 4096 4096).rounds.length = 64 ∧
    (PageStateChange goodHv 64 info4096 0 4096 4096).res = RunRes.ok ∧
    (∀ r ∈ (PageStateChange goodHv 64 info4096 0 4096 4096).rounds,
      r.2.res = RunRes.ok ∧
        r.2.ghcb.Header.EndEntry < r.2.ghcb.Header.CurrentEntry) := by
  refine ⟨?_, by decide, by decide, ?_⟩
  · simp only [PageStateChange]
    rw [hcur]
    obtain ⟨h1, h2, h3⟩ := pageStateChangeGo_coop hv maxE Info.Entry
      Info.Header.EndEntry hhv hm hw roundFuel 0 k fuel (by omega) (by omega)
    rw [List.drop_zero, Nat.sub_zero] at h2
    exact ⟨h1, h2, h3⟩
  · intro r hr
    obtain ⟨_, _, h3⟩ := pageStateChangeGo_coop goodHv 64 entries4096 4095
      (fun _ => rfl) (by omega) (by omega) 4096 0 0 4096 (by omega) (by omega)
    obtain ⟨_, _, hok, hdr⟩ := h3 r hr
    exact ⟨hok, hdr⟩

theorem multi_round_slicing_witness :
    (PageStateChange goodHv 64 infoTwo 0 5 5).res = RunRes.ok ∧
    ((PageStateChange goodHv 64 infoTwo 0 5 5).rounds.map
        (fun r => r.2.ghcb.Entry)).flatten = infoTwo.Entry.take 2 :=
  ⟨((multi_round_slicing goodHv 64 infoTwo 0 5 5 (fun _ => rfl) (by decide)
      (by decide) (by decide) (by decide) (by decide)).1).1,
    ((multi_round_slicing goodHv 64 infoTwo 0 5 5 (fun _ => rfl) (by decide)
      (by decide) (by decide) (by decide) (by decide)).1).2.1⟩

/-- Is this event a PVALIDATE instruction? -/
def Ev.isPvalidate : Ev → Bool
  | Ev.evPvalidate _ _ _ _ => true
  | _ => false

/-- Is this event a page-state-change VMGEXIT call? -/
def Ev.isVmgExitCall : Ev → Bool
  | Ev.evVmgExitCall _ _ => true
  | _ => false

theorem demoteLoop_all_pvalidate (pv : PvOracle) (v : Bool) :
    ∀ (n a ret : Nat), ∀ ev ∈ (demoteLoop pv v a ret n).2, ev.isPvalidate = true
  | 0, _, _ => by simp [demoteLoop]
  | n + 1, a, ret => by
    intro ev hev
    simp only [demoteLoop, ite_not] at hev
    by_cases h0 : pv PvalidatePageSize4K v a = 0
    · rw [if_pos h0] at hev
      rcases List.mem_cons.mp hev with hev | hev
      · subst hev
        rfl
      · exact demoteLoop_all_pvalidate pv v n (a + EFI_PAGE_SIZE)
          (pv PvalidatePageSize4K v a) ev hev
    · rw [if_neg h0] at hev
      rcases List.mem_cons.mp hev with hev | hev
      · subst hev
        rfl
      · simp at hev

theorem pvalidateEntry_all_pvalidate (pv : PvOracle) (e : SNP_PAGE_STATE_ENTRY) :
    ∀ ev ∈ (pvalidateEntry pv e).2, ev.isPvalidate = true := by
  intro ev hev
  simp only [pvalidateEntry] at hev
  split at hev
  · rcases List.mem_cons.mp hev with hev | hev
    · subst hev
      rfl
    · exact demoteLoop_all_pvalidate pv _ PAGES_PER_LARGE_ENTRY _ _ ev hev
  · rcases List.mem_cons.mp hev with hev | hev
    · subst hev
      rfl
    · simp at hev

theorem pvalidateRangeGo_no_vmg (pv : PvOracle)
    (entries : List SNP_PAGE_STATE_ENTRY) :
    ∀ (n i : Nat), ∀ ev ∈ (pvalidateRangeGo pv entries i n).2,
      ev.isVmgExitCall = false
  | 0, i => by
    intro ev hev
    simp [pvalidateRangeGo] at hev
  | n + 1, i => by
    intro ev hev
    simp only [pvalidateRangeGo, ite_not] at hev
    have hpv : ∀ ev2 ∈ (pvalidateEntry pv (entries.getD i default)).2,
        Ev.isVmgExitCall ev2 = false := by
      intro ev2 hev2
      have := pvalidateEntry_all_pvalidate pv (entries.getD i default) ev2 hev2
      cases ev2 <;> simp_all [Ev.isPvalidate, Ev.isVmgExitCall]
    split at hev
    · rcases List.mem_append.mp hev with hev | hev
      · exact hpv ev hev
      · exact pvalidateRangeGo_no_vmg pv entries n (i + 1) ev hev
    · rcases List.mem_append.mp hev with hev | hev
      · exact hpv ev hev
      · simp only [snpTerminateTrace, List.mem_cons, List.not_mem_nil,
          or_false] at hev
        rcases hev with h | h | h <;> subst h <;> rfl

theorem snpTerminateTrace_no_pvalidate :
    ∀ ev ∈ snpTerminateTrace, ev.isPvalidate = false := by
  intro ev hev
  simp only [snpTerminateTrace, List.mem_cons, List.not_mem_nil, or_false] at hev
  rcases hev with h | h | h <;> subst h <;> rfl

theorem vmgLoop_no_pvalidate (hv : HvOracle) (EndEntry : Nat) :
    ∀ (fuel cur k : Nat), ∀ ev ∈ (vmgLoop hv EndEntry cur k fuel).trace,
      ev.isPvalidate = false
  | 0, cur, k => by
    intro ev hev
    simp only [vmgLoop] at hev
    split at hev <;> simp at hev
  | fuel + 1, cur, k => by
    intro ev hev
    simp only [vmgLoop] at hev
    by_cases hc : cur ≤ EndEntry
    · rw [if_pos hc] at hev
      by_cases hb : (hv k).1 ≠ 0 ∨ (hv k).2.1 ≠ 0
      · rw [if_pos hb] at hev
        rcases List.mem_cons.mp hev with hev | hev
        · subst hev
          rfl
        · exact snpTerminateTrace_no_pvalidate ev hev
      · rw [if_neg hb] at hev
        dsimp only at hev
        rcases List.mem_cons.mp hev with hev | hev
        · subst hev
          rfl
        · exact vmgLoop_no_pvalidate hv EndEntry fuel (hv k).2.2 (k + 1) ev hev
    · rw [if_neg hc] at hev
      simp at hev

theorem pscVmgExit_no_pvalidate (hv : HvOracle) (maxE : Nat)
    (Start : List SNP_PAGE_STATE_ENTRY) (Count k fuel : Nat) :
    ∀ ev ∈ (PageStateChangeVmgExit hv maxE Start Count k fuel).trace,
      ev.isPvalidate = false := by
  intro ev hev
  simp only [PageStateChangeVmgExit] at hev
  split at hev
  · exact snpTerminateTrace_no_pvalidate ev hev
  · dsimp only at hev
    split at hev
    · rcases List.mem_cons.mp hev with hev | hev
      · subst hev
        rfl
      · rcases List.mem_append.mp hev with hev | hev
        · exact vmgLoop_no_pvalidate hv _ fuel 0 k ev hev
        · simp only [List.mem_singleton] at hev
          subst hev
          rfl
    · rcases List.mem_cons.mp hev with hev | hev
      · subst hev
        rfl
      · exact vmgLoop_no_pvalidate hv _ fuel 0 k ev hev

theorem pageStateChangeGo_no_pvalidate (hv : HvOracle) (maxE : Nat)
    (entries : List SNP_PAGE_STATE_ENTRY) (EndEntry : Nat) :
    ∀ (roundFuel Index k fuel : Nat),
      ∀ ev ∈ (pageStateChangeGo hv maxE entries EndEntry Index k fuel
          roundFuel).trace,
        ev.isPvalidate = false
  | 0, Index, k, fuel => by
    intro ev hev
    simp only [pageStateChangeGo] at hev
    split at hev <;> simp at hev
  | roundFuel + 1, Index, k, fuel => by
    intro ev hev
    simp only [pageStateChangeGo] at hev
    by_cases hidx : Index ≤ EndEntry
    · rw [if_pos hidx] at hev
      split at hev
      · dsimp only at hev
        rcases List.mem_append.mp hev with hev | hev
        · exact pscVmgExit_no_pvalidate hv maxE _ _ k fuel ev hev
        · exact pageStateChangeGo_no_pvalidate hv maxE entries EndEntry
            roundFuel _ _ _ ev hev
      · dsimp only at hev
        exact pscVmgExit_no_pvalidate hv maxE _ _ k fuel ev hev
    · rw [if_neg hidx] at hev
      simp at hev

theorem trace_split_ordering (t1 t2 : List Ev) (P Q : Ev → Bool)
    (h1 : ∀ ev ∈ t1, Q ev = false) (h2 : ∀ ev ∈ t2, P ev = false) :
    ∀ (i j : Fin (t1 ++ t2).length),
      P ((t1 ++ t2).get i) = true → Q ((t1 ++ t2).get j) = true →
      (i : Nat) < (j : Nat) := by
  intro i j hP hQ
  have hi : (i : Nat) < t1.length := by
    by_contra hni
    push_neg at hni
    have hmem : (t1 ++ t2).get i ∈ t2 := by
      rw [List.get_eq_getElem, List.getElem_append_right hni]
      exact List.getElem_mem _
    have := h2 _ hmem
    rw [this] at hP
    exact absurd hP (by simp)
  have hj : t1.length ≤ (j : Nat) := by
    by_contra hnj
    push_neg at hnj
    have hmem : (t1 ++ t2).get j ∈ t1 := by
      rw [List.get_eq_getElem, List.getElem_append_left hnj]
      exact List.getElem_mem _
    have := h1 _ hmem
    rw [this] at hQ
    exact absurd hQ (by simp)
  omega

theorem internalLoop_batch_shape (pv : PvOracle) (hv : HvOracle) (maxE : Nat)
    (State : SEV_SNP_PAGE_STATE) (UseLargeEntry : Bool) (IndexMax : Nat)
    (EndAddress : Nat) :
    ∀ (bf NextAddress k fuel roundFuel : Nat),
      ∀ b ∈ (internalSetPageStateLoop pv hv maxE State UseLargeEntry IndexMax
          EndAddress NextAddress k fuel roundFuel bf).2,
        ∃ base k2 fuel2,
          b.info = (BuildPageStateBuffer base EndAddress State UseLargeEntry
            IndexMax).1 ∧
          b.next = (BuildPageStateBuffer base EndAddress State UseLargeEntry
            IndexMax).2 ∧
          ((State = SevSnpPageShared ∧
            (b.trace = (PvalidateRange pv b.info).2 ∨
              b.trace = (PvalidateRange pv b.info).2 ++
                (PageStateChange hv maxE b.info k2 fuel2 roundFuel).trace)) ∨
           (State = SevSnpPagePrivate ∧
            ((PageStateChange hv maxE b.info k2 fuel2 roundFuel).res ≠
                RunRes.ok ∧
              b.trace =
                (PageStateChange hv maxE b.info k2 fuel2 roundFuel).trace ∨
             (PageStateChange hv maxE b.info k2 fuel2 roundFuel).res =
                RunRes.ok ∧
              b.trace =
                (PageStateChange hv maxE b.info k2 fuel2 roundFuel).trace ++
                  (PvalidateRange pv b.info).2)))
  | 0, NextAddress, k, fuel, roundFuel => by
    intro b hb
    simp [internalSetPageStateLoop] at hb
  | bf + 1, NextAddress, k, fuel, roundFuel => by
    intro b hb
    simp only [internalSetPageStateLoop] at hb
    by_cases hlt : NextAddress < EndAddress
    · rw [if_pos hlt] at hb
      cases State with
      | SevSnpPageShared =>
        simp only [reduceIte] at hb
        split at hb
        · simp only [List.mem_singleton] at hb
          subst hb
          exact ⟨NextAddress, k, fuel, rfl, rfl, Or.inl ⟨rfl, Or.inl rfl⟩⟩
        · split at hb
          · rcases List.mem_cons.mp hb with hb | hb
            · subst hb
              exact ⟨NextAddress, k, fuel, rfl, rfl,
                Or.inl ⟨rfl, Or.inr (by simp)⟩⟩
            · exact internalLoop_batch_shape pv hv maxE SevSnpPageShared
                UseLargeEntry IndexMax EndAddress bf _ _ _ _ b hb
          · simp only [List.mem_singleton] at hb
            subst hb
            exact ⟨NextAddress, k, fuel, rfl, rfl,
              Or.inl ⟨rfl, Or.inr (by simp)⟩⟩
      | SevSnpPagePrivate =>
        simp only [reduceIte] at hb
        split at hb
        · next hpc =>
          exact absurd hpc (by simp)
        · have htf : ((true = false) : Prop) = False := by simp
          simp only [htf, if_false] at hb
          split at hb
          · next hpc =>
            split at hb
            · simp only [List.mem_singleton] at hb
              subst hb
              exact ⟨NextAddress, k, fuel, rfl, rfl,
                Or.inr ⟨rfl, Or.inr ⟨hpc, by simp⟩⟩⟩
            · rcases List.mem_cons.mp hb with hb | hb
              · subst hb
                exact ⟨NextAddress, k, fuel, rfl, rfl,
                  Or.inr ⟨rfl, Or.inr ⟨hpc, by simp⟩⟩⟩
              · exact internalLoop_batch_shape pv hv maxE SevSnpPagePrivate
                  UseLargeEntry IndexMax EndAddress bf _ _ _ _ b hb
          · next hpc =>
            simp only [List.mem_singleton] at hb
            subst hb
            exact ⟨NextAddress, k, fuel, rfl, rfl,
              Or.inr ⟨rfl, Or.inl ⟨hpc, by simp⟩⟩⟩
    · rw [if_neg hlt] at hb
      simp at hb

theorem pvalidateRange_no_vmg (pv : PvOracle)
    (Info : SNP_PAGE_STATE_CHANGE_INFO) :
    ∀ ev ∈ (PvalidateRange pv Info).2, ev.isVmgExitCall = false :=
  fun ev hev => pvalidateRangeGo_no_vmg pv Info.Entry
    (Info.Header.EndEntry + 1 - Info.Header.CurrentEntry)
    Info.Header.CurrentEntry ev hev

theorem pageStateChange_no_pvalidate (hv : HvOracle) (maxE : Nat)
    (Info : SNP_PAGE_STATE_CHANGE_INFO) (k fuel roundFuel : Nat) :
    ∀ ev ∈ (PageStateChange hv maxE Info k fuel roundFuel).trace,
      ev.isPvalidate = false :=
  fun ev hev => pageStateChangeGo_no_pvalidate hv maxE Info.Entry
    Info.Header.EndEntry roundFuel Info.Header.CurrentEntry k fuel ev hev

/-- C1: the ordering of operations on each batch depends on the target
state. For a Shared transition, every PVALIDATE (invalidation) event of a
batch's trace happens before every page-state-change exit call of that
batch; for a Private transition, every exit call of the batch happens before
every PVALIDATE (validation) event. -/
theorem ordering_invariant (pv : PvOracle) (hv : HvOracle)
    (BaseAddress NumPages : Nat) (State : SEV_SNP_PAGE_STATE)
    (UseLargeEntry : Bool) (IndexMax k fuel roundFuel : Nat) :
    ∀ b ∈ (InternalSetPageState pv hv BaseAddress NumPages State UseLargeEntry
        IndexMax k fuel roundFuel).2,
      ∀ (i j : Fin b.trace.length),
        (State = SevSnpPageShared →
          (b.trace.get i).isPvalidate = true →
          (b.trace.get j).isVmgExitCall = true → (i : Nat) < (j : Nat)) ∧
        (State = SevSnpPagePrivate →
          (b.trace.get i).isVmgExitCall = true →
          (b.trace.get j).isPvalidate = true → (i : Nat) < (j : Nat)) := by
  intro b hb
  obtain ⟨base, k2, fuel2, hinfo, hnext, hsh⟩ :=
    internalLoop_batch_shape pv hv SNP_PAGE_STATE_MAX_ENTRY State UseLargeEntry
      IndexMax (BaseAddress + NumPages * EFI_PAGE_SIZE)
      (BaseAddress + NumPages * EFI_PAGE_SIZE - BaseAddress) BaseAddress k fuel
      roundFuel b hb
  rcases hsh with ⟨hst, htr⟩ | ⟨hst, htr⟩
  · subst hst
    rcases htr with htr | htr
    · rw [htr]
      intro i j
      constructor
      · intro _ _ hQ
        exfalso
        have hmem := List.get_mem (PvalidateRange pv b.info).2 j.1 j.2
        have := pvalidateRange_no_vmg pv b.info _ hmem
        rw [this] at hQ
        exact absurd hQ (by simp)
      · intro hPriv
        exact absurd hPriv (by simp)
    · rw [htr]
      intro i j
      refine ⟨fun _ hP hQ => ?_, fun hPriv => absurd hPriv (by simp)⟩
      exact trace_split_ordering _ _ _ _
        (pvalidateRange_no_vmg pv b.info)
        (pageStateChange_no_pvalidate hv SNP_PAGE_STATE_MAX_ENTRY b.info k2
          fuel2 roundFuel)
        i j hP hQ
  · subst hst
    rcases htr with ⟨_, htr⟩ | ⟨_, htr⟩
    · rw [htr]
      intro i j
      refine ⟨fun hSh => absurd hSh (by simp), fun _ hP hQ => ?_⟩
      exfalso
      have hmem := List.get_mem
        (PageStateChange hv SNP_PAGE_STATE_MAX_ENTRY b.info k2 fuel2
          roundFuel).trace j.1 j.2
      have := pageStateChange_no_pvalidate hv SNP_PAGE_STATE_MAX_ENTRY b.info
        k2 fuel2 roundFuel _ hmem
      rw [this] at hQ
      exact absurd hQ (by simp)
    · rw [htr]
      intro i j
      refine ⟨fun hSh => absurd hSh (by simp), fun _ hP hQ => ?_⟩
      exact trace_split_ordering _ _ _ _
        (pageStateChange_no_pvalidate hv SNP_PAGE_STATE_MAX_ENTRY b.info k2
          fuel2 roundFuel)
        (pvalidateRange_no_vmg pv b.info)
        i j hP hQ

/-- C9: the hypervisor exchange never modifies the caller-side batch.
`PageStateChangeVmgExit` copies the slice into the separate GHCB shared
buffer (its entry area is exactly the copied slice) and writes the round
header there; the caller's batch value is passed on unchanged, so in a
Private-state run every batch still has `Header.CurrentEntry = 0` when the
post-exchange validation runs, and that validation is `PvalidateRange` over
the very batch that was built, covering entries `0 … EndEntry` — every entry
built, not only unprocessed ones. -/
theorem exchange_preserves_batch (pv : PvOracle) (hv : HvOracle)
    (BaseAddress NumPages : Nat) (UseLargeEntry : Bool)
    (IndexMax k fuel roundFuel : Nat) :
    (∀ (hv2 : HvOracle) (maxE : Nat) (Start : List SNP_PAGE_STATE_ENTRY)
        (Count k2 fuel2 : Nat), Count ≤ maxE →
      (PageStateChangeVmgExit hv2 maxE Start Count k2 fuel2).ghcb.Entry =
        Start.take Count) ∧
    ∀ b ∈ (InternalSetPageState pv hv BaseAddress NumPages SevSnpPagePrivate
        UseLargeEntry IndexMax k fuel roundFuel).2,
      b.info.Header.CurrentEntry = 0 ∧
      (PvalidateRange pv b.info).2 =
        (pvalidateRangeGo pv b.info.Entry 0 (b.info.Header.EndEntry + 1)).2 ∧
      ∃ k2 fuel2,
        ((PageStateChange hv SNP_PAGE_STATE_MAX_ENTRY b.info k2 fuel2
            roundFuel).res ≠ RunRes.ok ∧
          b.trace = (PageStateChange hv SNP_PAGE_STATE_MAX_ENTRY b.info k2
            fuel2 roundFuel).trace) ∨
        ((PageStateChange hv SNP_PAGE_STATE_MAX_ENTRY b.info k2 fuel2
            roundFuel).res = RunRes.ok ∧
          b.trace = (PageStateChange hv SNP_PAGE_STATE_MAX_ENTRY b.info k2
            fuel2 roundFuel).trace ++ (PvalidateRange pv b.info).2) := by
  constructor
  · intro hv2 maxE Start Count k2 fuel2 hcm
    have hov : ¬ Count > maxE := by omega
    simp only [PageStateChangeVmgExit, hov, if_false]
  · intro b hb
    obtain ⟨base, k2, fuel2, hinfo, hnext, hsh⟩ :=
      internalLoop_batch_shape pv hv SNP_PAGE_STATE_MAX_ENTRY SevSnpPagePrivate
        UseLargeEntry IndexMax (BaseAddress + NumPages * EFI_PAGE_SIZE)
        (BaseAddress + NumPages * EFI_PAGE_SIZE - BaseAddress) BaseAddress k
        fuel roundFuel b hb
    have hcur : b.info.Header.CurrentEntry = 0 := by
      rw [hinfo]
      exact rfl
    refine ⟨hcur, ?_, ?_⟩
    · simp only [PvalidateRange, hcur, Nat.sub_zero]
    · rcases hsh with ⟨hst, _⟩ | ⟨_, htr⟩
      · exact absurd hst (by simp)
      · exact ⟨k2, fuel2, htr⟩

/-- A PVALIDATE oracle whose every call succeeds. -/
def pvZero : PvOracle := fun _ _ _ => 0

instance : Inhabited BatchRec :=
  ⟨{ info := { Header := { CurrentEntry := 0, EndEntry := 0 }, Entry := [] }
     next := 0
     trace := [] }⟩

/-- The single batch of a one-page Shared transition under clean oracles. -/
def sharedRunBatch : BatchRec :=
  (InternalSetPageState pvZero goodHv 0 1 SevSnpPageShared true 64 0 5
      5).2.headI

/-- The single batch of a one-page Private transition under clean oracles. -/
def privateRunBatch : BatchRec :=
  (InternalSetPageState pvZero goodHv 0 1 SevSnpPagePrivate true 64 0 5
      5).2.headI

theorem ordering_invariant_witness :
    (sharedRunBatch.trace.get ⟨0, by decide⟩).isPvalidate = true ∧
    (sharedRunBatch.trace.get ⟨2, by decide⟩).isVmgExitCall = true ∧
    ((⟨0, by decide⟩ : Fin sharedRunBatch.trace.length) : Nat) <
      ((⟨2, by decide⟩ : Fin sharedRunBatch.trace.length) : Nat) :=
  ⟨by decide, by decide,
    (ordering_invariant pvZero goodHv 0 1 SevSnpPageShared true 64 0 5 5
      sharedRunBatch (by decide) ⟨0, by decide⟩ ⟨2, by decide⟩).1 rfl
      (by decide) (by decide)⟩

theorem exchange_preserves_batch_witness :
    privateRunBatch.info.Header.CurrentEntry = 0 ∧
    (PvalidateRange pvZero privateRunBatch.info).2 =
      (pvalidateRangeGo pvZero privateRunBatch.info.Entry 0
        (privateRunBatch.info.Header.EndEntry + 1)).2 ∧
    ∃ k2 fuel2,
      ((PageStateChange goodHv SNP_PAGE_STATE_MAX_ENTRY privateRunBatch.info
          k2 fuel2 5).res ≠ RunRes.ok ∧
        privateRunBatch.trace = (PageStateChange goodHv
          SNP_PAGE_STATE_MAX_ENTRY privateRunBatch.info k2 fuel2 5).trace) ∨
      ((PageStateChange goodHv SNP_PAGE_STATE_MAX_ENTRY privateRunBatch.info
          k2 fuel2 5).res = RunRes.ok ∧
        privateRunBatch.trace = (PageStateChange goodHv
          SNP_PAGE_STATE_MAX_ENTRY privateRunBatch.info k2 fuel2 5).trace ++
          (PvalidateRange pvZero privateRunBatch.info).2) :=
  (exchange_preserves_batch pvZero goodHv 0 1 true 64 0 5 5).2 privateRunBatch
    (by decide)
